import Mathlib

/-!
# Verification of the subtitle editor's timecode/text consistency engine

A shallow embedding of the core data-transformation logic of the SRT subtitle
editor (timecode arithmetic, conflict detection, split planning, cascade
duration planning, SRT codec), with theorems settling the specification's
claims about it.

Modelling conventions:
* JavaScript strings are modelled as `List Char`.
* JavaScript numbers are modelled as exact rationals (`ℚ`).  All concrete
  inputs used in evaluation theorems below involve only values (integers,
  halves, millisecond multiples) on which IEEE double arithmetic is exact,
  so the rational model agrees with the source on those inputs.
* `Math.floor` is `Int.floor`; the JavaScript `%` operator (remainder with
  the sign of the dividend, truncated division) is `jsMod`; `Math.round`
  is `jsRound` (floor of x + 1/2); `Math.min`/`Math.max` are `min`/`max`.
* `Number(s)` on an all-digit string is its numeric value and `Number('')`
  is `0`; these are the only shapes reached by the theorems below, so the
  model reads digit strings with `natOfDigits` (NaN propagation for other
  shapes is outside the modelled domain).
* Loops are structural recursions over an explicit index list or fuel so
  that every definition evaluates by kernel reduction.
-/

/-- JavaScript whitespace test, restricted to the ASCII whitespace that can
occur in the documents considered here (space, tab, LF, CR). -/
def wsChar (c : Char) : Bool :=
  c == ' ' || c == '\t' || c == '\n' || c == '\r'

/-- `String.prototype.trimStart`. -/
def jsTrimStart (l : List Char) : List Char :=
  l.dropWhile wsChar

/-- `String.prototype.trim`: drop whitespace from both ends. -/
def jsTrim (l : List Char) : List Char :=
  ((l.dropWhile wsChar).reverse.dropWhile wsChar).reverse

/-- The character for a decimal digit value. -/
def digitChar (d : ℕ) : Char :=
  Char.ofNat (48 + d)

/-- Decimal rendering of a natural number, with fuel for structural
recursion (the fuel `n + 1` always suffices). -/
def natToStringAux : ℕ → ℕ → List Char
  | 0, _ => []
  | fuel + 1, n =>
    if n < 10 then [digitChar n]
    else natToStringAux fuel (n / 10) ++ [digitChar (n % 10)]

/-- `n.toString()` for a nonnegative integral JavaScript number. -/
def natToString (n : ℕ) : List Char :=
  natToStringAux (n + 1) n

/-- `i.toString()` for an integral JavaScript number of either sign. -/
def intToString (i : ℤ) : List Char :=
  if i < 0 then '-' :: natToString (-i).toNat else natToString i.toNat

/-- Numeric value of an all-digit string (`Number(s)` / `parseInt(s, 10)`
on the digit-only strings reached by the theorems; `Number('') = 0`). -/
def natOfDigits (l : List Char) : ℕ :=
  l.foldl (fun a c => 10 * a + (c.toNat - 48)) 0

/-- `String.prototype.padStart(n, c)`. -/
def padStart (n : ℕ) (c : Char) (l : List Char) : List Char :=
  List.replicate (n - l.length) c ++ l

/-- Prepend a character to the first chunk of a split result. -/
def consHead (c : Char) : List (List Char) → List (List Char)
  | [] => [[c]]
  | h :: t => (c :: h) :: t

/-- `s.split(sep)` for a single-character separator. -/
def splitOnChar (sep : Char) : List Char → List (List Char)
  | [] => [[]]
  | c :: r => if c == sep then [] :: splitOnChar sep r else consHead c (splitOnChar sep r)

/-- `s.split(/\r?\n/)`. -/
def splitLines : List Char → List (List Char)
  | '\r' :: '\n' :: r => [] :: splitLines r
  | '\n' :: r => [] :: splitLines r
  | c :: r => consHead c (splitLines r)
  | [] => [[]]

/-- `s.split(/\r?\n\r?\n/)` (the SRT block separator). -/
def splitBlocks : List Char → List (List Char)
  | '\r' :: '\n' :: '\r' :: '\n' :: r => [] :: splitBlocks r
  | '\r' :: '\n' :: '\n' :: r => [] :: splitBlocks r
  | '\n' :: '\r' :: '\n' :: r => [] :: splitBlocks r
  | '\n' :: '\n' :: r => [] :: splitBlocks r
  | c :: r => consHead c (splitBlocks r)
  | [] => [[]]

/-- `s.split('-->')`. -/
def splitOnArrow : List Char → List (List Char)
  | '-' :: '-' :: '>' :: r => [] :: splitOnArrow r
  | c :: r => consHead c (splitOnArrow r)
  | [] => [[]]

/-- `s.includes('-->')`. -/
def containsArrow : List Char → Bool
  | '-' :: '-' :: '>' :: _ => true
  | _ :: r => containsArrow r
  | [] => false

/-- `Array.prototype.join(sep)`. -/
def joinSep (sep : List Char) : List (List Char) → List Char
  | [] => []
  | [x] => x
  | x :: xs => x ++ sep ++ joinSep sep xs

/-- JavaScript truncation toward zero (`Math.trunc`, and the implicit
truncation in the `%` operator). -/
def jsTrunc (q : ℚ) : ℤ :=
  if 0 ≤ q then ⌊q⌋ else -⌊-q⌋

/-- The JavaScript `%` operator on numbers: remainder with the sign of the
dividend. On nonnegative operands it agrees with the floor-based remainder. -/
def jsMod (a b : ℚ) : ℚ :=
  a - b * jsTrunc (a / b)

/-- `Math.round`. -/
def jsRound (q : ℚ) : ℤ :=
  ⌊q + 1 / 2⌋

/-- The central segment record (`Subtitle` in `types.ts`).  The wall-clock
field `editedAt` and the provenance fields (`originalText`, `sourceFile`,
`previousText`, …) are never read by the operations verified here and are
omitted from the model. -/
structure Subtitle where
  id : ℕ
  startTime : List Char
  endTime : List Char
  text : List Char
  charCount : ℕ := 0
  isLong : Bool := false
  duration : ℚ := 0
  isTooShort : Bool := false
  isTooLong : Bool := false
  hasTimecodeConflict : Bool := false
  recentlyEdited : Bool := false
  canUndo : Bool := false
  deriving Repr, DecidableEq, Inhabited

/-! ## `src/utils/timecodeUtils.ts` (the named revision)

This revision's `timecodesOverlap` tests strict interval overlap only. -/

namespace TimecodeUtils

/-- `timecodeToSeconds`: split on `','`, split the time part on `':'`,
convert each field with `Number`, combine. -/
def timecodeToSeconds (timecode : List Char) : ℚ :=
  let parts := splitOnChar ',' timecode
  let time := parts.getD 0 []
  let ms := parts.getD 1 []
  let tparts := splitOnChar ':' time
  let hours := natOfDigits (tparts.getD 0 [])
  let minutes := natOfDigits (tparts.getD 1 [])
  let seconds := natOfDigits (tparts.getD 2 [])
  (hours : ℚ) * 3600 + (minutes : ℚ) * 60 + (seconds : ℚ) + (natOfDigits ms : ℚ) / 1000

/-- `secondsToTimecode`: the `Math.floor` chain of this revision. -/
def secondsToTimecode (seconds : ℚ) : List Char :=
  let hours : ℤ := ⌊seconds / 3600⌋
  let minutes : ℤ := ⌊jsMod seconds 3600 / 60⌋
  let secs : ℤ := ⌊jsMod seconds 60⌋
  let ms : ℤ := ⌊jsMod seconds 1 * 1000⌋
  padStart 2 '0' (intToString hours) ++ ':' ::
    (padStart 2 '0' (intToString minutes) ++ ':' ::
      (padStart 2 '0' (intToString secs) ++ ',' :: padStart 3 '0' (intToString ms)))

/-- `timecodesOverlap` of this revision: strict overlap only. -/
def timecodesOverlap (start1 end1 start2 end2 : List Char) : Bool :=
  let start1Sec := timecodeToSeconds start1
  let end1Sec := timecodeToSeconds end1
  let start2Sec := timecodeToSeconds start2
  let end2Sec := timecodeToSeconds end2
  decide (start1Sec < end2Sec) && decide (start2Sec < end1Sec)

/-- `hasTimecodeConflict`: conflict against any *other* segment, where
"other" means a different `id` value. -/
def hasTimecodeConflict (subtitle : Subtitle) (allSubtitles : List Subtitle) : Bool :=
  allSubtitles.any fun other =>
    (other.id != subtitle.id) &&
      timecodesOverlap subtitle.startTime subtitle.endTime other.startTime other.endTime

/-- `isValidTimecode`: the regex `/^\d{2}:\d{2}:\d{2},\d{3}$/`. -/
def isValidTimecode (t : List Char) : Bool :=
  match t with
  | [h1, h2, c1, m1, m2, c2, s1, s2, c3, x1, x2, x3] =>
    h1.isDigit && h2.isDigit && c1 == ':' && m1.isDigit && m2.isDigit && c2 == ':' &&
      s1.isDigit && s2.isDigit && c3 == ',' && x1.isDigit && x2.isDigit && x3.isDigit
  | _ => false

end TimecodeUtils

/-! ## `src/utils/timeUtils.ts` (`src/unnamed/part_002`)

The integer-millisecond formatting path used by the application's split
logic: `formatSecondsToTime` rounds to total milliseconds first. -/

namespace TimeUtils

/-- `parseTimeToSeconds` (same shape as `timecodeToSeconds`;
`Number(ms) || 0` also yields the numeric value on the digit strings
reached here). -/
def parseTimeToSeconds (timeString : List Char) : ℚ :=
  let parts := splitOnChar ',' timeString
  let time := parts.getD 0 []
  let milliseconds := parts.getD 1 []
  let tparts := splitOnChar ':' time
  let hours := natOfDigits (tparts.getD 0 [])
  let minutes := natOfDigits (tparts.getD 1 [])
  let seconds := natOfDigits (tparts.getD 2 [])
  (hours : ℚ) * 3600 + (minutes : ℚ) * 60 + (seconds : ℚ) + (natOfDigits milliseconds : ℚ) / 1000

/-- `formatSecondsToTime`: conversion through total integer milliseconds
(`Math.round(totalSeconds * 1000)`), then division/modulo. -/
def formatSecondsToTime (totalSeconds : ℚ) : List Char :=
  let totalMs : ℚ := (jsRound (totalSeconds * 1000) : ℚ)
  let hours : ℤ := ⌊totalMs / 3600000⌋
  let minutes : ℤ := ⌊jsMod totalMs 3600000 / 60000⌋
  let seconds : ℤ := ⌊jsMod totalMs 60000 / 1000⌋
  let milliseconds : ℚ := jsMod totalMs 1000
  padStart 2 '0' (intToString hours) ++ ':' ::
    (padStart 2 '0' (intToString minutes) ++ ':' ::
      (padStart 2 '0' (intToString seconds) ++ ',' :: padStart 3 '0' (intToString (jsTrunc milliseconds))))

/-- `calculateDuration`. -/
def calculateDuration (startTime endTime : List Char) : ℚ :=
  parseTimeToSeconds endTime - parseTimeToSeconds startTime

/-- `splitTimeProportionally`: both returned timecodes are the same
formatted split point. -/
def splitTimeProportionally (startTime endTime : List Char) (firstPartRatio : ℚ) :
    List Char × List Char :=
  let startSeconds := parseTimeToSeconds startTime
  let endSeconds := parseTimeToSeconds endTime
  let totalDuration := endSeconds - startSeconds
  let splitPoint := startSeconds + totalDuration * firstPartRatio
  (formatSecondsToTime splitPoint, formatSecondsToTime splitPoint)

end TimeUtils

/-! ## `src/utils/textUtils.ts` -/

namespace TextUtils

/-- `text.replace(/\n/g, ' ')`. -/
def newlinesToSpaces (l : List Char) : List Char :=
  l.map fun c => if c == '\n' then ' ' else c

/-- State of the best-split scan: candidate index and distance so far
(`none` models the initial `Infinity` distance). -/
def bestStep (target : ℚ) (words : List (List Char)) (best : ℕ × Option ℚ) (i : ℕ) :
    ℕ × Option ℚ :=
  let firstPartText := joinSep [' '] (words.take i)
  let distance := |(firstPartText.length : ℚ) - target|
  match best.2 with
  | none => (i, some distance)
  | some bd => if distance < bd then (i, some distance) else best

/-- `splitTextIntelligently`: returns `(firstPart, secondPart, firstRatio)`. -/
def splitTextIntelligently (text : List Char) : List Char × List Char × ℚ :=
  let cleanText := jsTrim (newlinesToSpaces text)
  let words := splitOnChar ' ' cleanText
  if words.length == 1 then (text, [], 1)
  else
    let totalChars : ℚ := (cleanText.length : ℚ)
    let targetSplit := totalChars / 2
    let best := (List.range' 1 (words.length - 1)).foldl (bestStep targetSplit words) (0, none)
    let firstPart := joinSep [' '] (words.take best.1)
    let secondPart := joinSep [' '] (words.drop best.1)
    let firstPartChars : ℚ := (firstPart.length : ℚ)
    let totalOriginalChars : ℚ := firstPartChars + (secondPart.length : ℚ)
    let ratio := if 0 < totalOriginalChars then firstPartChars / totalOriginalChars else 1 / 2
    (firstPart, secondPart, ratio)

/-- `validateSplit`: at least two words and trimmed length over 10. -/
def validateSplit (text : List Char) : Bool :=
  let words := splitOnChar ' ' (jsTrim (newlinesToSpaces text))
  decide (2 ≤ words.length) && decide (10 < (jsTrim text).length)

end TextUtils

/-! ## `src/unnamed/part_000` — the cascade-planner revision of
`utils/timecodeUtils.ts`.

Its `timecodeToSeconds`/`secondsToTimecode` are textually identical to the
named revision's, so they are reused; `timecodesOverlap` here additionally
counts exact adjacency as a conflict.

JavaScript aliasing note: `calculateCascadePlan` copies the input array with
`[...subtitles]`, which shares the segment *objects* with the caller, and
then assigns `subtitle.startTime`/`subtitle.endTime` on those shared objects.
Element order never changes and objects are only field-mutated, so object
identity coincides with list position throughout; the model therefore
threads the working list explicitly and returns it alongside the plan —
the returned list is the caller's observable post-call timeline. -/

namespace CascadeRev

def timecodeToSeconds : List Char → ℚ := TimecodeUtils.timecodeToSeconds

def secondsToTimecode : ℚ → List Char := TimecodeUtils.secondsToTimecode

/-- `timecodesOverlap` of this revision: strict overlap, or exact
zero-gap adjacency. -/
def timecodesOverlap (start1 end1 start2 end2 : List Char) : Bool :=
  let start1Sec := timecodeToSeconds start1
  let end1Sec := timecodeToSeconds end1
  let start2Sec := timecodeToSeconds start2
  let end2Sec := timecodeToSeconds end2
  let hasOverlap := decide (start1Sec < end2Sec) && decide (start2Sec < end1Sec)
  let isConsecutive := decide (end1Sec = start2Sec) || decide (end2Sec = start1Sec)
  hasOverlap || isConsecutive

/-- `hasTimecodeConflict` of this revision. -/
def hasTimecodeConflict (subtitle : Subtitle) (allSubtitles : List Subtitle) : Bool :=
  allSubtitles.any fun other =>
    (other.id != subtitle.id) &&
      timecodesOverlap subtitle.startTime subtitle.endTime other.startTime other.endTime

/-- `addTimeToTimecode`: through seconds, clamped at zero below. -/
def addTimeToTimecode (timecode : List Char) (secondsToAdd : ℚ) : List Char :=
  let currentSeconds := timecodeToSeconds timecode
  let newSeconds := max 0 (currentSeconds + secondsToAdd)
  secondsToTimecode newSeconds

/-- `calculateGap`. -/
def calculateGap (subtitle1 subtitle2 : Subtitle) : ℚ :=
  let end1Seconds := timecodeToSeconds subtitle1.endTime
  let start2Seconds := timecodeToSeconds subtitle2.startTime
  max 0 (start2Seconds - end1Seconds)

inductive StepAction where
  | extend
  | shorten
  | move
  deriving Repr, DecidableEq

structure CascadeStep where
  subtitleId : ℕ
  action : StepAction
  timeChange : ℚ
  reason : List Char
  deriving Repr, DecidableEq

structure CascadePlan where
  steps : List CascadeStep
  totalAffected : ℕ
  canBeFixed : Bool
  reason : Option (List Char) := none
  deriving Repr, DecidableEq

/-- Segment duration as the planner computes it. -/
def durationOf (s : Subtitle) : ℚ :=
  timecodeToSeconds s.endTime - timecodeToSeconds s.startTime

/-- First pass of `findCascadeSolution`: walk the listed indices (the
`for` loop from `currentIndex + 1`), borrowing slack from later segments
while time is still needed. -/
def borrowPass (subtitles : List Subtitle) (currentIndex : ℕ) :
    List ℕ → ℚ → ℚ → List CascadeStep × ℚ
  | [], _, remainingNeeded => ([], remainingNeeded)
  | i :: rest, minDurationSeconds, remainingNeeded =>
    if remainingNeeded > 0 then
      let nextSubtitle := subtitles.getD i default
      let nextDuration := durationOf nextSubtitle
      let available := nextDuration - minDurationSeconds
      if available > 0 then
        let takeFromNext := min remainingNeeded available
        let s1 : CascadeStep :=
          ⟨(subtitles.getD currentIndex default).id, .extend, takeFromNext,
            "Extend to meet minimum duration".toList⟩
        let s2 : CascadeStep :=
          ⟨nextSubtitle.id, .shorten, takeFromNext,
            ("Provide time for segment #".toList ++
              natToString (subtitles.getD currentIndex default).id)⟩
        let tail := borrowPass subtitles currentIndex rest minDurationSeconds
          (remainingNeeded - takeFromNext)
        (s1 :: s2 :: tail.1, tail.2)
      else borrowPass subtitles currentIndex rest minDurationSeconds remainingNeeded
    else ([], remainingNeeded)

/-- Second pass of `findCascadeSolution`: walk consecutive pairs from
`currentIndex` on, consuming gaps; note that for a gap that does not
immediately follow the segment being fixed, the `extend` step targets the
*earlier segment of the pair*, not the segment being fixed. -/
def gapPass (subtitles : List Subtitle) : List ℕ → ℚ → List CascadeStep × ℚ
  | [], remainingNeeded => ([], remainingNeeded)
  | i :: rest, remainingNeeded =>
    if remainingNeeded > 0 then
      let current := subtitles.getD i default
      let next := subtitles.getD (i + 1) default
      let gap := calculateGap current next
      if gap > 0 then
        let useFromGap := min remainingNeeded gap
        let s1 : CascadeStep :=
          ⟨current.id, .extend, useFromGap,
            ("Use gap before segment #".toList ++ natToString next.id)⟩
        let s2 : CascadeStep := ⟨next.id, .move, useFromGap, "Move to maintain gap".toList⟩
        let tail := gapPass subtitles rest (remainingNeeded - useFromGap)
        (s1 :: s2 :: tail.1, tail.2)
      else gapPass subtitles rest remainingNeeded
    else ([], remainingNeeded)

/-- `findCascadeSolution`: both passes, then the `<= 0.001` epsilon test;
`none` models the `null` return. -/
def findCascadeSolution (subtitles : List Subtitle) (currentIndex : ℕ)
    (needed minDurationSeconds : ℚ) : Option (List CascadeStep) :=
  let pass1 := borrowPass subtitles currentIndex
    (List.range' (currentIndex + 1) (subtitles.length - (currentIndex + 1)))
    minDurationSeconds needed
  let pass2 :=
    if pass1.2 > 0 then
      let g := gapPass subtitles
        (List.range' currentIndex (subtitles.length - 1 - currentIndex)) pass1.2
      (pass1.1 ++ g.1, g.2)
    else pass1
  if pass2.2 ≤ 1 / 1000 then some pass2.1 else none

/-- One step of `applyCascadeSolution`/`applyCascadeFix`'s replay loop:
look the segment up by id (a missing id is silently skipped) and shift the
named edge(s). -/
def applyStep (subtitles : List Subtitle) (step : CascadeStep) : List Subtitle :=
  match subtitles.findIdx? (fun s => s.id == step.subtitleId) with
  | none => subtitles
  | some subtitleIndex =>
    let subtitle := subtitles.getD subtitleIndex default
    let subtitle' :=
      match step.action with
      | .extend => { subtitle with endTime := addTimeToTimecode subtitle.endTime step.timeChange }
      | .shorten =>
        { subtitle with startTime := addTimeToTimecode subtitle.startTime step.timeChange }
      | .move =>
        { subtitle with
            startTime := addTimeToTimecode subtitle.startTime step.timeChange,
            endTime := addTimeToTimecode subtitle.endTime step.timeChange }
    subtitles.set subtitleIndex subtitle'

/-- `applyCascadeSolution`: replay every step in order (mutating the shared
segment objects). -/
def applyCascadeSolution (subtitles : List Subtitle) (steps : List CascadeStep) :
    List Subtitle :=
  steps.foldl applyStep subtitles

/-- The main loop of `calculateCascadePlan` over the segments that needed
fixing (tracked by their positions, which never change).  Returns the plan
together with the final state of the caller's (aliased) timeline. -/
def planLoop (minDurationSeconds : ℚ) :
    List ℕ → List CascadeStep → List Subtitle → CascadePlan × List Subtitle
  | [], steps, working =>
    (⟨steps, ((steps.map CascadeStep.subtitleId).dedup).length, true, none⟩, working)
  | idx :: rest, steps, working =>
    let subtitle := working.getD idx default
    match working.findIdx? (fun s => s.id == subtitle.id) with
    | none => planLoop minDurationSeconds rest steps working
    | some currentIndex =>
      let currentDuration := durationOf subtitle
      let needed := minDurationSeconds - currentDuration
      match findCascadeSolution working currentIndex needed minDurationSeconds with
      | some solution =>
        planLoop minDurationSeconds rest (steps ++ solution)
          (applyCascadeSolution working solution)
      | none =>
        (⟨[], 0, false,
            some ("Cannot fix segment #".toList ++ natToString subtitle.id ++
              " - insufficient time available".toList)⟩,
          working)

/-- `calculateCascadePlan`.  The second component is the state of the
input timeline's segments after the call (the planning itself writes to
them through the shallow copy). -/
def calculateCascadePlan (subtitles : List Subtitle) (minDurationSeconds : ℚ) :
    CascadePlan × List Subtitle :=
  let needsFixing := (List.range subtitles.length).filter fun i =>
    durationOf (subtitles.getD i default) < minDurationSeconds
  if needsFixing.isEmpty then (⟨[], 0, true, none⟩, subtitles)
  else planLoop minDurationSeconds needsFixing [] subtitles

/-- `applyCascadeFix`.  The `Except` result models the `throw` on an
infeasible plan; the second component is again the caller's timeline state
after the call.  Note that the steps are replayed on segments that the
planning call has already shifted through the shared objects. -/
def applyCascadeFix (subtitles : List Subtitle) (minDurationSeconds : ℚ) :
    Except (List Char) (List Subtitle) × List Subtitle :=
  let planned := calculateCascadePlan subtitles minDurationSeconds
  let plan := planned.1
  let working := planned.2
  if plan.canBeFixed then
    let result := plan.steps.foldl applyStep working
    let final := result.map fun subtitle =>
      let duration := durationOf subtitle
      { subtitle with
          duration := duration,
          isTooShort := decide (duration < minDurationSeconds),
          isTooLong := decide (duration > 7),
          hasTimecodeConflict := hasTimecodeConflict subtitle result,
          recentlyEdited := true,
          canUndo := true }
    (.ok final, result)
  else
    (.error (plan.reason.getD "Cannot apply cascade fix".toList), working)

end CascadeRev

/-! ## `src/unnamed/part_001` — the integer-millisecond revision of
`utils/timecodeUtils.ts` (`addSecondsToTimecode`). -/

namespace MsRev

def isValidTimecode : List Char → Bool := TimecodeUtils.isValidTimecode

/-- `toString()` of a JavaScript number, faithful for integral values —
the only values the theorems below ever render.  The non-integral branch
is an explicit placeholder (JavaScript would print a decimal expansion)
and is never reached in any statement proved about this model. -/
def ratToString (q : ℚ) : List Char :=
  if q.den = 1 then intToString q.num
  else intToString q.num ++ '/' :: natToString q.den

/-- `addSecondsToTimecode`: exact arithmetic on total milliseconds, no
clamping of negative results. -/
def addSecondsToTimecode (timecode : List Char) (secondsToAdd : ℚ) : List Char :=
  let parts := splitOnChar ',' timecode
  let time := parts.getD 0 []
  let ms := parts.getD 1 []
  let tparts := splitOnChar ':' time
  let hours := natOfDigits (tparts.getD 0 [])
  let minutes := natOfDigits (tparts.getD 1 [])
  let seconds := natOfDigits (tparts.getD 2 [])
  let milliseconds := natOfDigits ms
  let totalMs : ℚ := (hours : ℚ) * 3600000 + (minutes : ℚ) * 60000 + (seconds : ℚ) * 1000 +
    (milliseconds : ℚ)
  let newTotalMs : ℚ := totalMs + secondsToAdd * 1000
  let newHours : ℤ := ⌊newTotalMs / 3600000⌋
  let newMinutes : ℤ := ⌊jsMod newTotalMs 3600000 / 60000⌋
  let newSeconds : ℤ := ⌊jsMod newTotalMs 60000 / 1000⌋
  let newMs : ℚ := jsMod newTotalMs 1000
  padStart 2 '0' (intToString newHours) ++ ':' ::
    (padStart 2 '0' (intToString newMinutes) ++ ':' ::
      (padStart 2 '0' (intToString newSeconds) ++ ',' :: padStart 3 '0' (ratToString newMs)))

end MsRev

/-! ## `src/services/srtParser.ts` (the named revision) -/

namespace SrtCodec

/-- `MAX_TOTAL_CHARS` from `constants.ts`. -/
def MAX_TOTAL_CHARS : ℕ := 74

/-- The record this revision's `parseSrt` pushes per block. -/
structure SrtEntry where
  id : ℕ
  startTime : List Char
  endTime : List Char
  text : List Char
  charCount : ℕ
  isLong : Bool
  deriving Repr, DecidableEq

/-- The parse of one SRT block; `none` models both the blank-block skip and
the logged skip of a block missing its id or timecode line. -/
def parseBlock (block : List Char) : Option SrtEntry :=
  if (jsTrim block).isEmpty then none
  else
    let lines := splitLines block
    let idLine? := lines.find? fun line =>
      let t := jsTrim line
      !t.isEmpty && t.all Char.isDigit
    let timecodeLine? := lines.find? containsArrow
    match idLine?, timecodeLine? with
    | some idLine, some timecodeLine =>
      let textLines :=
        match lines.findIdx? (fun line => line == timecodeLine) with
        | some i => lines.drop (i + 1)
        | none => lines
      let id := natOfDigits (jsTrim idLine)
      let parts := splitOnArrow timecodeLine
      let startTime := jsTrim (parts.getD 0 [])
      let endTime := jsTrim (parts.getD 1 [])
      let text := joinSep ['\n'] textLines
      let charCount := (text.filter fun c => c != '\n').length
      some ⟨id, startTime, endTime, text, charCount, decide (charCount > MAX_TOTAL_CHARS)⟩
    | _, _ => none

/-- `parseSrt`: trim, split into blank-line-separated blocks, parse each,
skipping the malformed ones. -/
def parseSrt (srtContent : List Char) : List SrtEntry :=
  (splitBlocks (jsTrim srtContent)).filterMap parseBlock

/-- The serialized block for one segment: `id\nstart --> end\ntext`. -/
def blockOf (sub : Subtitle) : List Char :=
  natToString sub.id ++ '\n' :: sub.startTime ++ ' ' :: '-' :: '-' :: '>' :: ' ' ::
    sub.endTime ++ '\n' :: sub.text

/-- `formatSrt`: blocks joined by a blank line, with a trailing newline. -/
def formatSrt (subtitles : List Subtitle) : List Char :=
  joinSep ['\n', '\n'] (subtitles.map blockOf) ++ ['\n']

end SrtCodec

/-! ## `src/unnamed/part_004` — the flag-computing revision of
`services/srtParser.ts`.  Identical block structure, but each segment also
receives `duration`, `isTooShort` (`duration < 1`), `isTooLong`
(`duration > 7`), and a conflict flag recomputed over the whole set once
parsing is done. -/

namespace ParserFlagsRev

/-- The parse of one block in this revision. -/
def parseBlock (block : List Char) : Option Subtitle :=
  if (jsTrim block).isEmpty then none
  else
    let lines := splitLines block
    let idLine? := lines.find? fun line =>
      let t := jsTrim line
      !t.isEmpty && t.all Char.isDigit
    let timecodeLine? := lines.find? containsArrow
    match idLine?, timecodeLine? with
    | some idLine, some timecodeLine =>
      let textLines :=
        match lines.findIdx? (fun line => line == timecodeLine) with
        | some i => lines.drop (i + 1)
        | none => lines
      let id := natOfDigits (jsTrim idLine)
      let parts := splitOnArrow timecodeLine
      let startTime := jsTrim (parts.getD 0 [])
      let endTime := jsTrim (parts.getD 1 [])
      let text := joinSep ['\n'] textLines
      let charCount := (text.filter fun c => c != '\n').length
      let duration := TimeUtils.calculateDuration startTime endTime
      some
        { id := id
          startTime := startTime
          endTime := endTime
          text := text
          charCount := charCount
          isLong := decide (charCount > SrtCodec.MAX_TOTAL_CHARS)
          duration := duration
          isTooShort := decide (duration < 1)
          isTooLong := decide (duration > 7)
          hasTimecodeConflict := false }
    | _, _ => none

/-- `parseSrt` of this revision, with the conflict pass at the end (the
conflict test is the one imported from `utils/timecodeUtils`). -/
def parseSrt (srtContent : List Char) : List Subtitle :=
  let subtitles := (splitBlocks (jsTrim srtContent)).filterMap parseBlock
  subtitles.map fun subtitle =>
    { subtitle with
        hasTimecodeConflict := TimecodeUtils.hasTimecodeConflict subtitle subtitles }

end ParserFlagsRev

/-! ## `src/App.tsx` — `handleSplitSubtitle`'s document transformation. -/

namespace App

/-- The final renumbering pass: `newSubtitles.map((sub, index) => ({...sub,
id: index + 1}))`. -/
def renumberFrom : ℕ → List Subtitle → List Subtitle
  | _, [] => []
  | index, sub :: rest => { sub with id := index + 1 } :: renumberFrom (index + 1) rest

def renumber (subtitles : List Subtitle) : List Subtitle :=
  renumberFrom 0 subtitles

/-- The document update performed by `handleSplitSubtitle` (lines 447–527):
find the segment, split its text, and — only when the second part is
nonempty — replace it by the two proportionally timed halves and renumber.
The guard is solely `!splitResult.secondPart`; `validateSplit` is consulted
only by the UI layer to enable the button. -/
def handleSplitSubtitle (doc : List Subtitle) (id : ℕ) (maxTotalChars : ℕ)
    (minDurationSeconds maxDurationSeconds : ℚ) : List Subtitle :=
  match doc.findIdx? (fun sub => sub.id == id) with
  | none => doc
  | some subtitleIndex =>
    let subtitle := doc.getD subtitleIndex default
    let splitResult := TextUtils.splitTextIntelligently subtitle.text
    let firstPart := splitResult.1
    let secondPart := splitResult.2.1
    let firstRatioVal := splitResult.2.2
    if secondPart.isEmpty then doc
    else
      let timeResult :=
        TimeUtils.splitTimeProportionally subtitle.startTime subtitle.endTime firstRatioVal
      let firstCharCount := (firstPart.filter fun c => c != '\n').length
      let secondCharCount := (secondPart.filter fun c => c != '\n').length
      let firstSubtitle : Subtitle :=
        { subtitle with
            text := firstPart
            endTime := timeResult.1
            charCount := firstCharCount
            isLong := decide (firstCharCount > maxTotalChars)
            duration := TimeUtils.calculateDuration subtitle.startTime timeResult.1
            isTooShort :=
              decide (TimeUtils.calculateDuration subtitle.startTime timeResult.1 <
                minDurationSeconds)
            isTooLong :=
              decide (TimeUtils.calculateDuration subtitle.startTime timeResult.1 >
                maxDurationSeconds)
            recentlyEdited := true
            canUndo := false }
      let secondSubtitle : Subtitle :=
        { subtitle with
            id := subtitle.id + 1
            text := secondPart
            startTime := timeResult.2
            charCount := secondCharCount
            isLong := decide (secondCharCount > maxTotalChars)
            duration := TimeUtils.calculateDuration timeResult.2 subtitle.endTime
            isTooShort :=
              decide (TimeUtils.calculateDuration timeResult.2 subtitle.endTime <
                minDurationSeconds)
            isTooLong :=
              decide (TimeUtils.calculateDuration timeResult.2 subtitle.endTime >
                maxDurationSeconds)
            recentlyEdited := true
            canUndo := false }
      let newSubtitles :=
        doc.take subtitleIndex ++ [firstSubtitle, secondSubtitle] ++ doc.drop (subtitleIndex + 1)
      renumber newSubtitles

end App

/-! ## Concrete instances used by the evaluation theorems -/

/-- Shorthand for string literals as character lists. -/
def tc (s : String) : List Char := s.toList

/-- A timeline on which the cascade planner fixes segment 1 (borrowing from
segment 2's slack) before discovering that segment 3 cannot be fixed. -/
def cascadeFailTimeline : List Subtitle :=
  [{ id := 1, startTime := tc "00:00:00,000", endTime := tc "00:00:00,500", text := tc "a" },
   { id := 2, startTime := tc "00:00:00,500", endTime := tc "00:00:02,500", text := tc "b" },
   { id := 3, startTime := tc "00:00:02,500", endTime := tc "00:00:02,600", text := tc "c" }]

/-- A timeline where the only spare time is the gap between segments 2 and
3, which does not adjoin the under-duration segment 1. -/
def gapTimeline : List Subtitle :=
  [{ id := 1, startTime := tc "00:00:00,000", endTime := tc "00:00:00,500", text := tc "a" },
   { id := 2, startTime := tc "00:00:00,500", endTime := tc "00:00:01,500", text := tc "b" },
   { id := 3, startTime := tc "00:00:02,500", endTime := tc "00:00:03,500", text := tc "c" }]

/-- A single 8-second segment. -/
def overLongTimeline : List Subtitle :=
  [{ id := 1, startTime := tc "00:00:00,000", endTime := tc "00:00:08,000", text := tc "a" }]

/-- A one-segment document whose text has two words but only five trimmed
characters, so `validateSplit` rejects it. -/
def shortTextDoc : List Subtitle :=
  [{ id := 1, startTime := tc "00:00:00,000", endTime := tc "00:00:04,000", text := tc "ab cd" }]

/-- A one-segment document with a single-word text. -/
def oneWordDoc : List Subtitle :=
  [{ id := 1, startTime := tc "00:00:00,000", endTime := tc "00:00:04,000", text := tc "hello" }]

/-- A healthy one-segment timeline for the flag-recomputation witness. -/
def cw9 : List Subtitle :=
  [{ id := 1, startTime := tc "00:00:00,000", endTime := tc "00:00:02,000", text := tc "hi" }]

def cw9res : List Subtitle := (CascadeRev.applyCascadeFix cw9 1).1.toOption.getD []

def cw9head : Subtitle := cw9res.getD 0 default

def cw9content : List Char := tc "1\n00:00:00,000 --> 00:00:02,000\nhi"

def cw9parsedHead : Subtitle := (ParserFlagsRev.parseSrt cw9content).getD 0 default

deriving instance DecidableEq for Except

/- The Batteries rational primitives are sealed for elaboration; unseal them
so that concrete evaluations reduce inside `decide`. -/
unseal Rat.add Rat.mul Rat.sub Rat.inv

/-- The two overlapping segments that share id 1. -/
def dupA : Subtitle :=
  { id := 1, startTime := tc "00:00:00,000", endTime := tc "00:00:02,000", text := tc "x" }

def dupB : Subtitle :=
  { id := 1, startTime := tc "00:00:01,000", endTime := tc "00:00:03,000", text := tc "y" }

/-- A splittable one-segment document for the C6 witness. -/
def splitDoc : List Subtitle :=
  [{ id := 1, startTime := tc "00:00:00,000", endTime := tc "00:00:04,000",
     text := tc "hello world foo" }]

/-- The minutes field of a canonical timecode string. -/
def minutesField (t : List Char) : ℕ := natOfDigits ((t.drop 3).take 2)

/-- The seconds field of a canonical timecode string. -/
def secondsField (t : List Char) : ℕ := natOfDigits ((t.drop 6).take 2)

/-- The hours field of a canonical timecode string. -/
def hoursField (t : List Char) : ℕ := natOfDigits (t.take 2)

/-- The milliseconds field of a canonical timecode string. -/
def msField (t : List Char) : ℕ := natOfDigits ((t.drop 9).take 3)

/-- Total integer milliseconds denoted by a canonical timecode string. -/
def totalMsOf (t : List Char) : ℕ :=
  3600000 * hoursField t + 60000 * minutesField t + 1000 * secondsField t + msField t

/-- Whether a blank-line separator (`\n\n`) occurs in a CR-free string. -/
def hasNN : List Char → Bool
  | '\n' :: '\n' :: _ => true
  | _ :: r => hasNN r
  | [] => false

/-- Canonical-shape condition on a segment text under which the codec
round-trips: nonempty, CR-free, no blank line, not starting with a
newline, not ending in whitespace. -/
def goodText (t : List Char) : Prop :=
  t ≠ [] ∧ '\r' ∉ t ∧ hasNN t = false ∧ t.head? ≠ some '\n' ∧
    ∀ c ∈ t.getLast?, wsChar c = false

/-- Canonical-shape condition on a stored timecode string: nonempty, no
whitespace, no dash (true of every `HH:MM:SS,mmm` string). -/
def goodTime (s : List Char) : Prop :=
  s ≠ [] ∧ ∀ c ∈ s, wsChar c = false ∧ c ≠ '-'

/-- Canonical shape of a segment produced by this system. -/
def goodSub (s : Subtitle) : Prop :=
  goodText s.text ∧ goodTime s.startTime ∧ goodTime s.endTime

/-- The controlled fields of a segment. -/
def ctrl (s : Subtitle) : ℕ × List Char × List Char × List Char :=
  (s.id, s.startTime, s.endTime, s.text)

/-- The controlled fields of a parsed entry. -/
def ctrlE (e : SrtCodec.SrtEntry) : ℕ × List Char × List Char × List Char :=
  (e.id, e.startTime, e.endTime, e.text)

/-- A concrete two-segment document of the canonical shape; the second text
carries an internal line break. -/
def rtDoc : List Subtitle :=
  [{ id := 1, startTime := tc "00:00:01,000", endTime := tc "00:00:02,500",
     text := tc "Hello world" },
   { id := 2, startTime := tc "00:00:03,000", endTime := tc "00:00:04,000",
     text := tc "Hi\nthere" }]

/-! ## C10 — conflict detection excludes by id value, not object identity -/

/-- C10: `hasTimecodeConflict` excludes other segments solely by id
equality, so in a two-segment document whose segments share the same id it
reports no conflict for either of them, whatever their spans. -/
theorem hasTimecodeConflict_ignores_duplicate_ids (a b : Subtitle) (h : a.id = b.id) :
    TimecodeUtils.hasTimecodeConflict a [a, b] = false ∧
      TimecodeUtils.hasTimecodeConflict b [a, b] = false := by
  simp [TimecodeUtils.hasTimecodeConflict, h]

/-- Witness for C10: two distinct segments that both carry id 1 and whose
spans strictly overlap, yet neither is flagged. -/
theorem hasTimecodeConflict_ignores_duplicate_ids_witness :
    dupA.id = dupB.id ∧
    TimecodeUtils.timecodesOverlap dupA.startTime dupA.endTime dupB.startTime dupB.endTime =
      true ∧
    (TimecodeUtils.hasTimecodeConflict dupA [dupA, dupB] = false ∧
      TimecodeUtils.hasTimecodeConflict dupB [dupA, dupB] = false) :=
  ⟨rfl, by decide, hasTimecodeConflict_ignores_duplicate_ids dupA dupB rfl⟩

/-! ## C4 — overlap predicate vs. adjacency -/

/-- C4 counterexample: for the segments spanning `[0,1]` and `[1,2]`
seconds, the claimed characterisation fails on `timecodesOverlap` as found
in `src/utils/timecodeUtils.ts`: the spans are exactly adjacent, yet the
function returns `false`. -/
theorem timecodesOverlap_missing_adjacency_counterexample :
    ¬ (TimecodeUtils.timecodesOverlap (tc "00:00:00,000") (tc "00:00:01,000")
        (tc "00:00:01,000") (tc "00:00:02,000") = true ↔
      ((TimecodeUtils.timecodeToSeconds (tc "00:00:00,000") <
          TimecodeUtils.timecodeToSeconds (tc "00:00:02,000") ∧
        TimecodeUtils.timecodeToSeconds (tc "00:00:01,000") <
          TimecodeUtils.timecodeToSeconds (tc "00:00:01,000")) ∨
       TimecodeUtils.timecodeToSeconds (tc "00:00:01,000") =
          TimecodeUtils.timecodeToSeconds (tc "00:00:01,000") ∨
       TimecodeUtils.timecodeToSeconds (tc "00:00:02,000") =
          TimecodeUtils.timecodeToSeconds (tc "00:00:00,000"))) := by decide

/-- C4 amended: the cascade-era revision of `timecodesOverlap`
(`src/unnamed/part_000`, likewise `part_001`) returns true exactly on
strict overlap or exact zero-gap adjacency — and flags `[0,1]`/`[1,2]` —
while the revision in `src/utils/timecodeUtils.ts` returns true exactly on
strict overlap alone. -/
theorem timecodesOverlap_characterisation :
    (∀ start1 end1 start2 end2 : List Char,
      CascadeRev.timecodesOverlap start1 end1 start2 end2 = true ↔
        ((CascadeRev.timecodeToSeconds start1 < CascadeRev.timecodeToSeconds end2 ∧
          CascadeRev.timecodeToSeconds start2 < CascadeRev.timecodeToSeconds end1) ∨
         (CascadeRev.timecodeToSeconds end1 = CascadeRev.timecodeToSeconds start2 ∨
          CascadeRev.timecodeToSeconds end2 = CascadeRev.timecodeToSeconds start1))) ∧
    (∀ start1 end1 start2 end2 : List Char,
      TimecodeUtils.timecodesOverlap start1 end1 start2 end2 = true ↔
        (TimecodeUtils.timecodeToSeconds start1 < TimecodeUtils.timecodeToSeconds end2 ∧
         TimecodeUtils.timecodeToSeconds start2 < TimecodeUtils.timecodeToSeconds end1)) ∧
    CascadeRev.timecodesOverlap (tc "00:00:00,000") (tc "00:00:01,000")
      (tc "00:00:01,000") (tc "00:00:02,000") = true := by
  refine ⟨fun start1 end1 start2 end2 => ?_, fun start1 end1 start2 end2 => ?_, by decide⟩ <;>
    simp [CascadeRev.timecodesOverlap, TimecodeUtils.timecodesOverlap]

/-! ## C1 — the all-or-nothing contract of the cascade planner -/

/-- C1: the plan's `steps` list is indeed empty when `canBeFixed` is
`false`, but the planning call itself has already moved the caller's
segments: on `cascadeFailTimeline` (segment 3 unfixable) the failure
report comes back with segment 1's end and segment 2's start already
shifted from `00:00:00,500` to `00:00:01,000` through the shared segment
objects. -/
theorem calculateCascadePlan_infeasible_mutates_input :
    (CascadeRev.calculateCascadePlan cascadeFailTimeline 1).1.canBeFixed = false ∧
    (CascadeRev.calculateCascadePlan cascadeFailTimeline 1).1.steps = [] ∧
    (cascadeFailTimeline.getD 0 default).endTime = tc "00:00:00,500" ∧
    ((CascadeRev.calculateCascadePlan cascadeFailTimeline 1).2.getD 0 default).endTime =
      tc "00:00:01,000" ∧
    (cascadeFailTimeline.getD 1 default).startTime = tc "00:00:00,500" ∧
    ((CascadeRev.calculateCascadePlan cascadeFailTimeline 1).2.getD 1 default).startTime =
      tc "00:00:01,000" ∧
    ((CascadeRev.applyCascadeFix cascadeFailTimeline 1).2.getD 0 default).endTime =
      tc "00:00:01,000" := by decide

/-! ## C2 — effectiveness of a feasible cascade plan -/

/-- C2: on `gapTimeline` the planner consumes the gap between segments 2
and 3 — emitting the `extend` on segment *2* — reports `canBeFixed`, and
`applyCascadeFix` returns a result in which the previously under-duration
segment 1 still lasts only half a second, outside the claimed 1 ms
tolerance of the 1 s minimum. -/
theorem applyCascadeFix_feasible_leaves_segment_short :
    CascadeRev.durationOf (gapTimeline.getD 0 default) < 1 ∧
    (CascadeRev.calculateCascadePlan gapTimeline 1).1.canBeFixed = true ∧
    ((CascadeRev.applyCascadeFix gapTimeline 1).1.toOption.getD []).length = 3 ∧
    (((CascadeRev.applyCascadeFix gapTimeline 1).1.toOption.getD []).getD 0 default).duration =
      1 / 2 ∧
    ¬ ((1 : ℚ) / 2 ≥ 1 - 1 / 1000) := by decide

/-! ## C9 — derived duration flags and the caller-supplied thresholds -/

/-- C9 counterexample: `applyCascadeFix` has no `maxDurationSeconds`
parameter at all; an 8-second segment is flagged `isTooLong` against the
hard-coded 7 even though a caller-supplied maximum of 10 would accept it. -/
theorem applyCascadeFix_hard_codes_max_duration :
    ((CascadeRev.applyCascadeFix overLongTimeline 1).1.toOption.getD []).map
        (fun s => (s.isTooLong, s.duration)) = [(true, 8)] ∧
    ¬ ((8 : ℚ) > 10) := by decide

/-- C9 amended: `applyCascadeFix` recomputes `isTooShort` from the
caller-supplied `minDurationSeconds` but compares `isTooLong` against a
hard-coded 7 s; the flag-computing `parseSrt` revision hard-codes both
thresholds (1 s minimum, 7 s maximum) and takes no threshold parameters. -/
theorem recomputed_flags_use_hard_coded_max :
    (∀ (subs : List Subtitle) (minDurationSeconds : ℚ) (res : List Subtitle),
      (CascadeRev.applyCascadeFix subs minDurationSeconds).1 = Except.ok res →
      ∀ s ∈ res,
        s.isTooShort = decide (s.duration < minDurationSeconds) ∧
        s.isTooLong = decide (s.duration > 7) ∧
        s.duration = CascadeRev.durationOf s) ∧
    (∀ srtContent : List Char, ∀ s ∈ ParserFlagsRev.parseSrt srtContent,
      s.isTooShort = decide (s.duration < 1) ∧ s.isTooLong = decide (s.duration > 7) ∧
      s.duration = TimeUtils.calculateDuration s.startTime s.endTime) := by
  constructor
  · intro subs minDurationSeconds res hok s hs
    unfold CascadeRev.applyCascadeFix at hok
    set planned := CascadeRev.calculateCascadePlan subs minDurationSeconds with hplanned
    by_cases hfix : planned.1.canBeFixed
    · simp only [hfix, if_true] at hok
      have hres := (Except.ok.inj hok).symm
      subst hres
      obtain ⟨t, ht, rfl⟩ := List.mem_map.mp hs
      exact ⟨rfl, rfl, rfl⟩
    · simp [hfix] at hok
  · intro srtContent s hs
    unfold ParserFlagsRev.parseSrt at hs
    obtain ⟨t, ht, rfl⟩ := List.mem_map.mp hs
    obtain ⟨b, _, hb⟩ := List.mem_filterMap.mp ht
    unfold ParserFlagsRev.parseBlock at hb
    by_cases hblank : (jsTrim b).isEmpty
    · simp [hblank] at hb
    · simp only [hblank, if_neg, Bool.false_eq_true, not_false_iff, if_false] at hb
      split at hb
      · cases hb
        refine ⟨rfl, rfl, rfl⟩
      · cases hb

/-- Witness for the amended C9 statement: a healthy one-segment timeline
run through `applyCascadeFix`, and the same document parsed by the
flag-computing `parseSrt`. -/
theorem recomputed_flags_use_hard_coded_max_witness :
    ((CascadeRev.applyCascadeFix cw9 1).1 = Except.ok cw9res) ∧
    cw9head ∈ cw9res ∧
    (cw9head.isTooShort = decide (cw9head.duration < 1) ∧
      cw9head.isTooLong = decide (cw9head.duration > 7) ∧
      cw9head.duration = CascadeRev.durationOf cw9head) ∧
    cw9parsedHead ∈ ParserFlagsRev.parseSrt cw9content ∧
    (cw9parsedHead.isTooShort = decide (cw9parsedHead.duration < 1) ∧
      cw9parsedHead.isTooLong = decide (cw9parsedHead.duration > 7) ∧
      cw9parsedHead.duration =
        TimeUtils.calculateDuration cw9parsedHead.startTime cw9parsedHead.endTime) :=
  ⟨by decide, by decide,
    recomputed_flags_use_hard_coded_max.1 cw9 1 cw9res (by decide) cw9head (by decide),
    by decide,
    recomputed_flags_use_hard_coded_max.2 cw9content cw9parsedHead (by decide)⟩

/-! ## C7 — the no-op guard of the split operation -/

/-- C7 counterexample: the text `"ab cd"` fails `validateSplit` (trimmed
length 5 ≤ 10), yet `handleSplitSubtitle` splits the segment: the returned
document has two segments, not one — the handler's only guard is an empty
second part. -/
theorem handleSplitSubtitle_splits_invalid_text :
    TextUtils.validateSplit (tc "ab cd") = false ∧
    (App.handleSplitSubtitle shortTextDoc 1 74 1 7).length = 2 ∧
    shortTextDoc.length = 1 := by decide

/-- C7 amended: the split is a silent no-op exactly in the code's two
guard situations — the id is absent, or `splitTextIntelligently` returns
an empty second part (a single-word text after line-break removal);
`validateSplit` is only consulted by the UI to enable the button. -/
theorem handleSplitSubtitle_noop_guard :
    (∀ (doc : List Subtitle) (id maxTotalChars : ℕ) (minD maxD : ℚ),
      doc.findIdx? (fun s => s.id == id) = none →
      App.handleSplitSubtitle doc id maxTotalChars minD maxD = doc) ∧
    (∀ (doc : List Subtitle) (id maxTotalChars : ℕ) (minD maxD : ℚ) (i : ℕ),
      doc.findIdx? (fun s => s.id == id) = some i →
      (TextUtils.splitTextIntelligently (doc.getD i default).text).2.1 = [] →
      App.handleSplitSubtitle doc id maxTotalChars minD maxD = doc) := by
  constructor
  · intro doc id maxTotalChars minD maxD h
    simp [App.handleSplitSubtitle, h]
  · intro doc id maxTotalChars minD maxD i h hsecond
    simp only [App.handleSplitSubtitle, h, hsecond, List.isEmpty_nil, if_true]

/-- Witness for the amended C7 statement: a single-word document is left
unchanged. -/
theorem handleSplitSubtitle_noop_guard_witness :
    oneWordDoc.findIdx? (fun s => s.id == 1) = some 0 ∧
    (TextUtils.splitTextIntelligently (oneWordDoc.getD 0 default).text).2.1 = [] ∧
    App.handleSplitSubtitle oneWordDoc 1 74 1 7 = oneWordDoc :=
  ⟨by decide, by decide,
    handleSplitSubtitle_noop_guard.2 oneWordDoc 1 74 1 7 0 (by decide) (by decide)⟩

/-! ## C6 — split conserves the time span -/

/-- A `findIdx?` result (with start index `s`) lies in `[s, s + length)`. -/
theorem findIdx?_some_bounds {α : Type} (p : α → Bool) :
    ∀ (l : List α) (s i : ℕ), List.findIdx? p l s = some i → s ≤ i ∧ i < s + l.length := by
  intro l
  induction l with
  | nil => intro s i h; simp [List.findIdx?] at h
  | cons a t ih =>
    intro s i h
    rw [List.findIdx?_cons] at h
    by_cases hp : p a = true
    · simp [hp] at h
      simp only [List.length_cons]
      omega
    · simp [hp] at h
      obtain ⟨a, ha, haeq⟩ := h
      have := ih 0 a ha
      simp only [List.length_cons]
      omega

theorem renumberFrom_length : ∀ (n : ℕ) (l : List Subtitle),
    (App.renumberFrom n l).length = l.length := by
  intro n l
  induction l generalizing n with
  | nil => rfl
  | cons a t ih => simp [App.renumberFrom, ih]

theorem renumberFrom_getD : ∀ (n : ℕ) (l : List Subtitle) (i : ℕ), i < l.length →
    (App.renumberFrom n l).getD i default = { l.getD i default with id := n + i + 1 } := by
  intro n l
  induction l generalizing n with
  | nil => intro i h; simp at h
  | cons a t ih =>
    intro i h
    cases i with
    | zero => rfl
    | succ j =>
      have hj : j < t.length := by simpa using h
      calc (App.renumberFrom n (a :: t)).getD (j + 1) default
          = (App.renumberFrom (n + 1) t).getD j default := rfl
        _ = { t.getD j default with id := (n + 1) + j + 1 } := ih (n + 1) j hj
        _ = { (a :: t).getD (j + 1) default with id := n + (j + 1) + 1 } := by
            rw [show (n + 1) + j + 1 = n + (j + 1) + 1 from by omega]; rfl

theorem renumber_splice_length (pre : List Subtitle) (f s : Subtitle)
    (post : List Subtitle) :
    (App.renumber (pre ++ [f, s] ++ post)).length = pre.length + post.length + 2 := by
  rw [App.renumber, renumberFrom_length]
  simp [List.length_append]
  omega

theorem renumber_splice_getD_fst (pre : List Subtitle) (f s : Subtitle) (post : List Subtitle)
    (i : ℕ) (hpre : pre.length = i) :
    (App.renumber (pre ++ [f, s] ++ post)).getD i default = { f with id := i + 1 } := by
  have hlen : i < (pre ++ [f, s] ++ post).length := by
    simp [List.length_append]; omega
  rw [App.renumber, renumberFrom_getD 0 _ i hlen]
  rw [List.getD_eq_getElem?_getD,
    List.getElem?_append_left (by simp [hpre] : i < (pre ++ [f, s]).length),
    List.getElem?_append_right hpre.le, hpre, Nat.sub_self]
  simp only [List.getElem?_cons_zero, Option.getD_some, Nat.zero_add]

theorem renumber_splice_getD_snd (pre : List Subtitle) (f s : Subtitle) (post : List Subtitle)
    (i : ℕ) (hpre : pre.length = i) :
    (App.renumber (pre ++ [f, s] ++ post)).getD (i + 1) default = { s with id := i + 2 } := by
  have hlen : i + 1 < (pre ++ [f, s] ++ post).length := by
    simp [List.length_append]; omega
  rw [App.renumber, renumberFrom_getD 0 _ (i + 1) hlen]
  rw [List.getD_eq_getElem?_getD,
    List.getElem?_append_left (by simp [hpre] : i + 1 < (pre ++ [f, s]).length),
    List.getElem?_append_right (by omega : pre.length ≤ i + 1), hpre, Nat.add_sub_cancel_left]
  simp only [List.getElem?_cons_succ, List.getElem?_cons_zero, Option.getD_some, Nat.zero_add]

/-- C6: when the text is splittable (the handler's own criterion: the
second part is nonempty), the two segments written at positions `i` and
`i + 1` partition the original span exactly: same start, same end, and
the first's end equals the second's start. -/
theorem handleSplitSubtitle_conserves_span :
    ∀ (doc : List Subtitle) (id maxTotalChars : ℕ) (minD maxD : ℚ) (i : ℕ),
      doc.findIdx? (fun s => s.id == id) = some i →
      (TextUtils.splitTextIntelligently (doc.getD i default).text).2.1 ≠ [] →
      (App.handleSplitSubtitle doc id maxTotalChars minD maxD).length = doc.length + 1 ∧
      ((App.handleSplitSubtitle doc id maxTotalChars minD maxD).getD i default).startTime =
        (doc.getD i default).startTime ∧
      ((App.handleSplitSubtitle doc id maxTotalChars minD maxD).getD i default).endTime =
        ((App.handleSplitSubtitle doc id maxTotalChars minD maxD).getD (i + 1) default).startTime ∧
      ((App.handleSplitSubtitle doc id maxTotalChars minD maxD).getD (i + 1) default).endTime =
        (doc.getD i default).endTime := by
  intro doc id maxTotalChars minD maxD i h hsecond
  have hi : i < doc.length := by
    have := findIdx?_some_bounds (fun s => s.id == id) doc 0 i h
    omega
  have hempty : (TextUtils.splitTextIntelligently (doc.getD i default).text).2.1.isEmpty =
      false := by
    rcases hcase : (TextUtils.splitTextIntelligently (doc.getD i default).text).2.1 with _ | _
    · exact absurd hcase hsecond
    · rfl
  have htake : (doc.take i).length = i := by simp [hi.le]
  unfold App.handleSplitSubtitle
  rw [h]
  simp only [hempty, Bool.false_eq_true, if_false]
  refine ⟨?_, ?_, ?_, ?_⟩
  · rw [renumber_splice_length]
    simp only [List.length_take, List.length_drop]
    omega
  · rw [renumber_splice_getD_fst _ _ _ _ _ htake]
  · rw [renumber_splice_getD_fst _ _ _ _ _ htake, renumber_splice_getD_snd _ _ _ _ _ htake]
    rfl
  · rw [renumber_splice_getD_snd _ _ _ _ _ htake]

/-- Witness for C6: the split of `splitDoc`'s only segment. -/
theorem handleSplitSubtitle_conserves_span_witness :
    splitDoc.findIdx? (fun s => s.id == 1) = some 0 ∧
    (TextUtils.splitTextIntelligently (splitDoc.getD 0 default).text).2.1 ≠ [] ∧
    ((App.handleSplitSubtitle splitDoc 1 74 1 7).length = splitDoc.length + 1 ∧
      ((App.handleSplitSubtitle splitDoc 1 74 1 7).getD 0 default).startTime =
        (splitDoc.getD 0 default).startTime ∧
      ((App.handleSplitSubtitle splitDoc 1 74 1 7).getD 0 default).endTime =
        ((App.handleSplitSubtitle splitDoc 1 74 1 7).getD 1 default).startTime ∧
      ((App.handleSplitSubtitle splitDoc 1 74 1 7).getD 1 default).endTime =
        (splitDoc.getD 0 default).endTime) :=
  ⟨by decide, by decide,
    handleSplitSubtitle_conserves_span splitDoc 1 74 1 7 0 (by decide) (by decide)⟩

/-! ## Toolkit: decimal digits, rendering and reading numbers -/

theorem digitChar_isDigit {d : ℕ} (h : d < 10) : (digitChar d).isDigit = true := by
  interval_cases d <;> decide

theorem digitChar_toNat {d : ℕ} (h : d < 10) : (digitChar d).toNat = 48 + d := by
  interval_cases d <;> decide

theorem digitChar_not_ws {d : ℕ} (h : d < 10) : wsChar (digitChar d) = false := by
  interval_cases d <;> decide

theorem digitChar_ne {d : ℕ} (h : d < 10) (c : Char) (hc : c.isDigit = false) :
    digitChar d ≠ c := by
  intro he
  rw [← he] at hc
  rw [digitChar_isDigit h] at hc
  cases hc

theorem isDigit_eq_digitChar {c : Char} (h : c.isDigit = true) :
    ∃ d, d < 10 ∧ c = digitChar d := by
  have hb : 48 ≤ c.toNat ∧ c.toNat ≤ 57 := by
    simp [Char.isDigit] at h
    exact ⟨h.1, h.2⟩
  refine ⟨c.toNat - 48, by omega, ?_⟩
  have : 48 + (c.toNat - 48) = c.toNat := by omega
  rw [digitChar, this, Char.ofNat_toNat]

theorem natToStringAux_fuel : ∀ f1 f2 n, n < f1 → n < f2 →
    natToStringAux f1 n = natToStringAux f2 n := by
  intro f1
  induction f1 with
  | zero => intro f2 n h1; omega
  | succ f ih =>
    intro f2 n h1 h2
    cases f2 with
    | zero => omega
    | succ g =>
      simp only [natToStringAux]
      by_cases hn : n < 10
      · simp [hn]
      · simp only [hn, if_false]
        have hd : n / 10 < n := Nat.div_lt_self (by omega) (by omega)
        rw [ih g (n / 10) (by omega) (by omega)]

/-- The fuelled renderer satisfies the intended recursion. -/
theorem natToString_eq (n : ℕ) : natToString n =
    if n < 10 then [digitChar n] else natToString (n / 10) ++ [digitChar (n % 10)] := by
  by_cases hn : n < 10
  · simp [natToString, natToStringAux, hn]
  · have h1 : natToString n = natToStringAux n (n / 10) ++ [digitChar (n % 10)] := by
      rw [natToString,
        show natToStringAux (n + 1) n =
            if n < 10 then [digitChar n]
            else natToStringAux n (n / 10) ++ [digitChar (n % 10)] from rfl]
      simp [hn]
    rw [h1, natToStringAux_fuel n (n / 10 + 1) (n / 10)
      (Nat.div_lt_self (by omega) (by omega)) (by omega)]
    simp only [hn, if_false]
    rfl

theorem natToString_ne_nil (n : ℕ) : natToString n ≠ [] := by
  rw [natToString_eq]
  by_cases hn : n < 10 <;> simp [hn]

theorem natToString_digits (n : ℕ) : ∀ c ∈ natToString n, ∃ d, d < 10 ∧ c = digitChar d := by
  induction n using Nat.strong_induction_on with
  | _ n ih =>
    rw [natToString_eq]
    by_cases hn : n < 10
    · simp only [hn, if_true, List.mem_singleton]
      rintro c rfl
      exact ⟨n, hn, rfl⟩
    · simp only [hn, if_false, List.mem_append, List.mem_singleton]
      rintro c (hc | rfl)
      · exact ih (n / 10) (Nat.div_lt_self (by omega) (by omega)) c hc
      · exact ⟨n % 10, by omega, rfl⟩

theorem natOfDigits_acc (l : List Char) : ∀ a : ℕ,
    l.foldl (fun a c => 10 * a + (c.toNat - 48)) a = a * 10 ^ l.length + natOfDigits l := by
  induction l with
  | nil => intro a; simp [natOfDigits]
  | cons c t ih =>
    intro a
    simp only [List.foldl_cons, List.length_cons, natOfDigits]
    rw [ih (10 * a + (c.toNat - 48)), ih (10 * 0 + (c.toNat - 48))]
    ring

theorem natOfDigits_append (a b : List Char) :
    natOfDigits (a ++ b) = natOfDigits a * 10 ^ b.length + natOfDigits b := by
  unfold natOfDigits
  rw [List.foldl_append, natOfDigits_acc]
  rfl

theorem natOfDigits_digitChar {d : ℕ} (h : d < 10) : natOfDigits [digitChar d] = d := by
  simp [natOfDigits, digitChar_toNat h]

theorem natOfDigits_natToString (n : ℕ) : natOfDigits (natToString n) = n := by
  induction n using Nat.strong_induction_on with
  | _ n ih =>
    rw [natToString_eq]
    by_cases hn : n < 10
    · simp [hn, natOfDigits_digitChar hn]
    · simp only [hn, if_false]
      rw [natOfDigits_append, natOfDigits_digitChar (by omega : n % 10 < 10),
        ih (n / 10) (Nat.div_lt_self (by omega) (by omega))]
      simp
      omega

theorem natOfDigits_leading_zeros (k : ℕ) (l : List Char) :
    natOfDigits (List.replicate k '0' ++ l) = natOfDigits l := by
  rw [natOfDigits_append]
  have : natOfDigits (List.replicate k '0') = 0 := by
    induction k with
    | zero => rfl
    | succ j ih =>
      have : natOfDigits (List.replicate (j + 1) '0') =
          natOfDigits (List.replicate j '0' ++ ['0']) := by
        rw [← List.replicate_succ']
      rw [this, natOfDigits_append, ih]
      rfl
  rw [this]
  ring

theorem natOfDigits_padStart (n : ℕ) (l : List Char) :
    natOfDigits (padStart n '0' l) = natOfDigits l := by
  rw [padStart, natOfDigits_leading_zeros]

theorem natToString_small {n : ℕ} (h : n < 10) : natToString n = [digitChar n] := by
  rw [natToString_eq, if_pos h]

theorem natToString_two {n : ℕ} (h1 : 10 ≤ n) (h2 : n < 100) :
    natToString n = [digitChar (n / 10), digitChar (n % 10)] := by
  rw [natToString_eq, if_neg (by omega), natToString_small (by omega)]
  rfl

theorem natToString_three {n : ℕ} (h1 : 100 ≤ n) (h2 : n < 1000) :
    natToString n = [digitChar (n / 100), digitChar (n / 10 % 10), digitChar (n % 10)] := by
  rw [natToString_eq, if_neg (by omega), natToString_two (by omega) (by omega),
    Nat.div_div_eq_div_mul]
  rfl

theorem pad2_eq {n : ℕ} (h : n < 100) :
    padStart 2 '0' (natToString n) = [digitChar (n / 10), digitChar (n % 10)] := by
  by_cases hn : n < 10
  · rw [natToString_small hn]
    have h10 : n / 10 = 0 := by omega
    have hmod : n % 10 = n := by omega
    rw [h10, hmod]
    rfl
  · rw [natToString_two (by omega) h]
    rfl

theorem pad3_eq {n : ℕ} (h : n < 1000) :
    padStart 3 '0' (natToString n) =
      [digitChar (n / 100), digitChar (n / 10 % 10), digitChar (n % 10)] := by
  by_cases h1 : n < 10
  · rw [natToString_small h1]
    have e1 : n / 100 = 0 := by omega
    have e2 : n / 10 % 10 = 0 := by omega
    have e3 : n % 10 = n := by omega
    rw [e1, e2, e3]
    rfl
  · by_cases h2 : n < 100
    · rw [natToString_two (by omega) h2]
      have e1 : n / 100 = 0 := by omega
      have e2 : n / 10 % 10 = n / 10 := by omega
      rw [e1, e2]
      rfl
    · rw [natToString_three (by omega) h]
      rfl

theorem intToString_ofNat (n : ℕ) : intToString (n : ℤ) = natToString n := by
  rw [intToString, if_neg (by omega)]
  simp

theorem intToString_neg_head {i : ℤ} (h : i < 0) :
    ∃ ds, intToString i = '-' :: ds ∧ ds ≠ [] := by
  rw [intToString, if_pos h]
  exact ⟨_, rfl, natToString_ne_nil _⟩

/-! ## Toolkit: splitters and joins -/

theorem consHead_ne_nil (c : Char) (L : List (List Char)) : consHead c L ≠ [] := by
  cases L <;> simp [consHead]

theorem splitOnChar_ne_nil (sep : Char) (l : List Char) : splitOnChar sep l ≠ [] := by
  cases l with
  | nil => simp [splitOnChar]
  | cons c r =>
    by_cases hc : c == sep <;> simp [splitOnChar, hc, consHead_ne_nil]

theorem joinSep_cons (sep : List Char) (x : List Char) (xs : List (List Char)) (h : xs ≠ []) :
    joinSep sep (x :: xs) = x ++ sep ++ joinSep sep xs := by
  cases xs with
  | nil => exact absurd rfl h
  | cons y t => rfl

theorem joinSep_consHead (sep : List Char) (c : Char) (L : List (List Char)) (h : L ≠ []) :
    joinSep sep (consHead c L) = c :: joinSep sep L := by
  cases L with
  | nil => exact absurd rfl h
  | cons x t =>
    cases t with
    | nil => rfl
    | cons y u => rfl

theorem joinSep_splitOnChar (sep : Char) (l : List Char) :
    joinSep [sep] (splitOnChar sep l) = l := by
  induction l with
  | nil => rfl
  | cons c r ih =>
    by_cases hc : (c == sep) = true
    · have hceq : c = sep := by exact beq_iff_eq.mp hc
      simp only [splitOnChar, hc, if_true]
      rw [joinSep_cons _ _ _ (splitOnChar_ne_nil sep r), ih, hceq]
      rfl
    · simp only [splitOnChar, hc, Bool.false_eq_true, if_false]
      rw [joinSep_consHead _ _ _ (splitOnChar_ne_nil sep r), ih]

theorem splitOnChar_not_mem {sep : Char} {l : List Char} (h : sep ∉ l) :
    splitOnChar sep l = [l] := by
  induction l with
  | nil => rfl
  | cons c r ih =>
    have hc : (c == sep) = false := by
      simp only [List.mem_cons] at h
      simp only [beq_eq_false_iff_ne]
      intro he
      exact h (Or.inl he.symm)
    simp only [splitOnChar, hc, if_false]
    rw [ih (fun hm => h (List.mem_cons_of_mem c hm))]
    rfl

theorem splitOnChar_append_sep {sep : Char} {a : List Char} (r : List Char) (h : sep ∉ a) :
    splitOnChar sep (a ++ sep :: r) = a :: splitOnChar sep r := by
  induction a with
  | nil => simp [splitOnChar]
  | cons c t ih =>
    have hc : (c == sep) = false := by
      simp only [List.mem_cons] at h
      simp only [beq_eq_false_iff_ne]
      intro he
      exact h (Or.inl he.symm)
    simp only [List.cons_append, splitOnChar, hc, Bool.false_eq_true, if_false,
      List.append_eq]
    rw [ih (fun hm => h (List.mem_cons_of_mem c hm))]
    rfl

/-! ## Toolkit: trimming -/

theorem head?_not_ws {l : List Char} (h : ∀ c ∈ l, wsChar c = false) :
    ∀ c ∈ l.head?, wsChar c = false := by
  intro c hc
  cases l with
  | nil => simp at hc
  | cons a t =>
    simp only [List.head?_cons, Option.mem_some_iff] at hc
    subst hc
    exact h a (List.mem_cons_self a t)

theorem getLast?_not_ws {l : List Char} (h : ∀ c ∈ l, wsChar c = false) :
    ∀ c ∈ l.getLast?, wsChar c = false := by
  intro c hc
  rw [← List.head?_reverse] at hc
  cases hr : l.reverse with
  | nil => rw [hr] at hc; simp at hc
  | cons a t =>
    rw [hr] at hc
    simp only [List.head?_cons, Option.mem_some_iff] at hc
    have : c ∈ l.reverse := by rw [hr, hc]; exact List.mem_cons_self _ _
    exact h c (List.mem_reverse.mp this)

theorem dropWhile_ws_eq_self {l : List Char} (hh : ∀ c ∈ l.head?, wsChar c = false) :
    l.dropWhile wsChar = l := by
  cases l with
  | nil => rfl
  | cons a t =>
    have ha : wsChar a = false := hh a (by simp)
    rw [List.dropWhile_cons, ha]
    simp

theorem jsTrim_of_ends {l : List Char} (hh : ∀ c ∈ l.head?, wsChar c = false)
    (hl : ∀ c ∈ l.getLast?, wsChar c = false) : jsTrim l = l := by
  rw [jsTrim, dropWhile_ws_eq_self hh,
    dropWhile_ws_eq_self (by rw [List.head?_reverse]; exact hl), List.reverse_reverse]

theorem jsTrim_all_not_ws {l : List Char} (h : ∀ c ∈ l, wsChar c = false) : jsTrim l = l :=
  jsTrim_of_ends (head?_not_ws h) (getLast?_not_ws h)

theorem jsTrim_append_ws {l : List Char} (w : Char) (hw : wsChar w = true)
    (hh : ∀ c ∈ l.head?, wsChar c = false) (hl : ∀ c ∈ l.getLast?, wsChar c = false) :
    jsTrim (l ++ [w]) = l := by
  cases l with
  | nil => simp [jsTrim, List.dropWhile, hw]
  | cons a t =>
    have ha : wsChar a = false := hh a (by simp)
    rw [jsTrim]
    rw [show ((a :: t) ++ [w]).dropWhile wsChar = (a :: t) ++ [w] from by
      rw [List.cons_append, List.dropWhile_cons, ha]; simp]
    rw [List.reverse_append]
    simp only [List.reverse_singleton, List.singleton_append]
    rw [List.dropWhile_cons, hw]
    simp only [if_true]
    rw [dropWhile_ws_eq_self (by rw [List.head?_reverse]; exact hl), List.reverse_reverse]

theorem jsTrim_ws_cons {l : List Char} (w : Char) (hw : wsChar w = true)
    (hh : ∀ c ∈ l.head?, wsChar c = false) (hl : ∀ c ∈ l.getLast?, wsChar c = false) :
    jsTrim (w :: l) = l := by
  rw [jsTrim, List.dropWhile_cons, hw]
  simp only [if_true]
  rw [dropWhile_ws_eq_self hh,
    dropWhile_ws_eq_self (by rw [List.head?_reverse]; exact hl), List.reverse_reverse]

/-! ## Toolkit: the rational floor/remainder facts used by the timecode
formatters -/

theorem floor_natCast_div (N M : ℕ) : ⌊(N : ℚ) / (M : ℚ)⌋ = ((N / M : ℕ) : ℤ) := by
  have h := Rat.floor_intCast_div_natCast (N : ℤ) M
  push_cast at h
  rw [h]
  exact (Int.ofNat_tdiv N M).symm

theorem jsTrunc_nonneg {q : ℚ} (h : 0 ≤ q) : jsTrunc q = ⌊q⌋ := by
  rw [jsTrunc, if_pos h]

theorem jsMod_natCast (n M : ℕ) (hM : 0 < M) :
    jsMod (n : ℚ) (M : ℚ) = ((n % M : ℕ) : ℚ) := by
  rw [jsMod, jsTrunc_nonneg (by positivity), floor_natCast_div, Int.cast_natCast]
  have h2 : ((M * (n / M) + n % M : ℕ) : ℚ) = (n : ℚ) := by
    exact_mod_cast congrArg (fun k => ((k : ℕ) : ℚ)) (Nat.div_add_mod n M)
  push_cast at h2
  linarith

theorem jsMod_msGrid (N M : ℕ) (hM : 0 < M) :
    jsMod ((N : ℚ) / 1000) (M : ℚ) = ((N % (1000 * M) : ℕ) : ℚ) / 1000 := by
  have hq : ((N : ℚ) / 1000) / (M : ℚ) = (N : ℚ) / ((1000 * M : ℕ) : ℚ) := by
    push_cast
    field_simp
  rw [jsMod, jsTrunc_nonneg (by positivity), hq, floor_natCast_div, Int.cast_natCast]
  have h2 : ((1000 * M * (N / (1000 * M)) + N % (1000 * M) : ℕ) : ℚ) = (N : ℚ) := by
    exact_mod_cast congrArg (fun k => ((k : ℕ) : ℚ)) (Nat.div_add_mod N (1000 * M))
  push_cast at h2
  field_simp
  linarith

/-! ## Toolkit: canonical timecodes -/

theorem digitChar_beq_comma {d : ℕ} (h : d < 10) : (digitChar d == ',') = false := by
  interval_cases d <;> decide

theorem digitChar_beq_colon {d : ℕ} (h : d < 10) : (digitChar d == ':') = false := by
  interval_cases d <;> decide

/-- A string accepted by `/^\d{2}:\d{2}:\d{2},\d{3}$/` is exactly nine
digit values in the canonical frame. -/
theorem isValidTimecode_destruct {t : List Char}
    (hv : TimecodeUtils.isValidTimecode t = true) :
    ∃ a b c d e f g h i : ℕ, a < 10 ∧ b < 10 ∧ c < 10 ∧ d < 10 ∧ e < 10 ∧ f < 10 ∧
      g < 10 ∧ h < 10 ∧ i < 10 ∧
      t = [digitChar a, digitChar b, ':', digitChar c, digitChar d, ':', digitChar e,
        digitChar f, ',', digitChar g, digitChar h, digitChar i] := by
  rcases t with _ | ⟨u1, _ | ⟨u2, _ | ⟨u3, _ | ⟨u4, _ | ⟨u5, _ | ⟨u6, _ | ⟨u7, _ | ⟨u8,
    _ | ⟨u9, _ | ⟨u10, _ | ⟨u11, _ | ⟨u12, _ | ⟨u13, rest⟩⟩⟩⟩⟩⟩⟩⟩⟩⟩⟩⟩⟩ <;>
    first
      | exact Bool.noConfusion (show false = true from hv)
      | skip
  have hv' : (u1.isDigit && u2.isDigit && (u3 == ':') && u4.isDigit && u5.isDigit &&
      (u6 == ':') && u7.isDigit && u8.isDigit && (u9 == ',') && u10.isDigit && u11.isDigit &&
      u12.isDigit) = true := hv
  clear hv
  simp only [Bool.and_eq_true, beq_iff_eq] at hv' 
  obtain ⟨⟨⟨⟨⟨⟨⟨⟨⟨⟨⟨h1, h2⟩, h3⟩, h4⟩, h5⟩, h6⟩, h7⟩, h8⟩, h9⟩, h10⟩, h11⟩, h12⟩ := hv' 
  obtain ⟨a, ha, rfl⟩ := isDigit_eq_digitChar h1
  obtain ⟨b, hb, rfl⟩ := isDigit_eq_digitChar h2
  obtain ⟨c, hc, rfl⟩ := isDigit_eq_digitChar h4
  obtain ⟨d, hd, rfl⟩ := isDigit_eq_digitChar h5
  obtain ⟨e, he, rfl⟩ := isDigit_eq_digitChar h7
  obtain ⟨f, hf, rfl⟩ := isDigit_eq_digitChar h8
  obtain ⟨g, hg, rfl⟩ := isDigit_eq_digitChar h10
  obtain ⟨h, hh, rfl⟩ := isDigit_eq_digitChar h11
  obtain ⟨i, hi, rfl⟩ := isDigit_eq_digitChar h12
  subst h3 h6 h9
  exact ⟨a, b, c, d, e, f, g, h, i, ha, hb, hc, hd, he, hf, hg, hh, hi, rfl⟩

theorem natOfDigits_pair {a b : ℕ} (ha : a < 10) (hb : b < 10) :
    natOfDigits [digitChar a, digitChar b] = 10 * a + b := by
  simp only [natOfDigits, List.foldl, digitChar_toNat ha, digitChar_toNat hb]
  omega

theorem natOfDigits_triple {a b c : ℕ} (ha : a < 10) (hb : b < 10) (hc : c < 10) :
    natOfDigits [digitChar a, digitChar b, digitChar c] = 100 * a + 10 * b + c := by
  simp only [natOfDigits, List.foldl, digitChar_toNat ha, digitChar_toNat hb,
    digitChar_toNat hc]
  omega

/-- Parsing a canonical timecode yields its total milliseconds over 1000. -/
theorem timecodeToSeconds_digits {a b c d e f g h i : ℕ} (ha : a < 10) (hb : b < 10)
    (hc : c < 10) (hd : d < 10) (he : e < 10) (hf : f < 10) (hg : g < 10) (hh : h < 10)
    (hi : i < 10) :
    TimecodeUtils.timecodeToSeconds
      [digitChar a, digitChar b, ':', digitChar c, digitChar d, ':', digitChar e, digitChar f,
        ',', digitChar g, digitChar h, digitChar i] =
    ((3600000 * (10 * a + b) + 60000 * (10 * c + d) + 1000 * (10 * e + f) +
        (100 * g + 10 * h + i) : ℕ) : ℚ) / 1000 := by
  unfold TimecodeUtils.timecodeToSeconds
  simp only [splitOnChar, consHead, digitChar_beq_comma ha, digitChar_beq_comma hb,
    digitChar_beq_comma hc, digitChar_beq_comma hd, digitChar_beq_comma he,
    digitChar_beq_comma hf, digitChar_beq_comma hg, digitChar_beq_comma hh,
    digitChar_beq_comma hi, (by decide : (':' == ',') = false),
    (by decide : (',' == ',') = true), Bool.false_eq_true, if_false, if_true,
    digitChar_beq_colon ha, digitChar_beq_colon hb, digitChar_beq_colon hc,
    digitChar_beq_colon hd, digitChar_beq_colon he, digitChar_beq_colon hf,
    digitChar_beq_colon hg, digitChar_beq_colon hh, digitChar_beq_colon hi,
    (by decide : (':' == ':') = true), List.getD_cons_zero, List.getD_cons_succ]
  rw [natOfDigits_pair ha hb, natOfDigits_pair hc hd, natOfDigits_pair he hf,
    natOfDigits_triple hg hh hi]
  push_cast
  ring

theorem jsRound_natCast (N : ℕ) : jsRound (N : ℚ) = (N : ℤ) := by
  rw [jsRound, Int.floor_eq_iff]
  constructor
  · push_cast; linarith
  · push_cast; linarith

/-- Formatting through the integer-millisecond path on an exact
millisecond grid value renders the four div/mod components. -/
theorem formatSecondsToTime_msGrid (N : ℕ) :
    TimeUtils.formatSecondsToTime ((N : ℚ) / 1000) =
      padStart 2 '0' (natToString (N / 3600000)) ++ ':' ::
        (padStart 2 '0' (natToString (N % 3600000 / 60000)) ++ ':' ::
          (padStart 2 '0' (natToString (N % 60000 / 1000)) ++ ',' ::
            padStart 3 '0' (natToString (N % 1000)))) := by
  unfold TimeUtils.formatSecondsToTime
  have h0 : (N : ℚ) / 1000 * 1000 = (N : ℚ) := by field_simp
  rw [h0, jsRound_natCast N]
  have h1 : ((((N : ℤ)) : ℚ)) = ((N : ℕ) : ℚ) := by push_cast; rfl
  rw [h1]
  dsimp only
  rw [show ((N : ℚ) / 3600000) = (N : ℚ) / ((3600000 : ℕ) : ℚ) from by norm_num,
    floor_natCast_div]
  rw [show ((3600000 : ℚ)) = ((3600000 : ℕ) : ℚ) from by norm_num]
  rw [jsMod_natCast N 3600000 (by omega)]
  rw [show ((N % 3600000 : ℕ) : ℚ) / 60000 = ((N % 3600000 : ℕ) : ℚ) / ((60000 : ℕ) : ℚ)
    from by norm_num, floor_natCast_div]
  rw [show ((60000 : ℚ)) = ((60000 : ℕ) : ℚ) from by norm_num]
  rw [jsMod_natCast N 60000 (by omega)]
  rw [show ((N % 60000 : ℕ) : ℚ) / 1000 = ((N % 60000 : ℕ) : ℚ) / ((1000 : ℕ) : ℚ)
    from by norm_num, floor_natCast_div]
  rw [show ((1000 : ℚ)) = ((1000 : ℕ) : ℚ) from by norm_num]
  rw [jsMod_natCast N 1000 (by omega)]
  rw [jsTrunc_nonneg (by positivity), Int.floor_natCast]
  rw [intToString_ofNat, intToString_ofNat, intToString_ofNat, intToString_ofNat]

/-! ## C3 — timecode parse/format round-trip -/

/-- C3 counterexample: `"00:60:00,000"` is accepted by the strict format
check, but formatting after parsing normalizes it to `"01:00:00,000"` —
in the `timecodeUtils.ts` formatter and the integer-millisecond
`timeUtils.ts` formatter alike. -/
theorem timecode_roundtrip_counterexample :
    TimecodeUtils.isValidTimecode (tc "00:60:00,000") = true ∧
    TimecodeUtils.secondsToTimecode (TimecodeUtils.timecodeToSeconds (tc "00:60:00,000")) ≠
      tc "00:60:00,000" ∧
    TimeUtils.formatSecondsToTime (TimeUtils.parseTimeToSeconds (tc "00:60:00,000")) ≠
      tc "00:60:00,000" := by decide

/-- The two parsers are the same function. -/
theorem parseTimeToSeconds_eq :
    TimeUtils.parseTimeToSeconds = TimecodeUtils.timecodeToSeconds := rfl

/-- C3 amended: for every string accepted by `isValidTimecode` whose
minutes and seconds fields are below 60, formatting after parsing through
the total-integer-millisecond path (`formatSecondsToTime`, the formatter
the specification requires) is the identity. -/
theorem timecode_roundtrip_valid_fields :
    ∀ t : List Char, TimecodeUtils.isValidTimecode t = true →
      minutesField t < 60 → secondsField t < 60 →
      TimeUtils.formatSecondsToTime (TimeUtils.parseTimeToSeconds t) = t := by
  intro t hv hm hs
  obtain ⟨a, b, c, d, e, f, g, h, i, ha, hb, hc, hd, he, hf, hg, hh, hi, rfl⟩ :=
    isValidTimecode_destruct hv
  have hm' : 10 * c + d < 60 := by
    have : minutesField [digitChar a, digitChar b, ':', digitChar c, digitChar d, ':',
        digitChar e, digitChar f, ',', digitChar g, digitChar h, digitChar i] =
        natOfDigits [digitChar c, digitChar d] := rfl
    rw [this, natOfDigits_pair hc hd] at hm
    exact hm
  have hs' : 10 * e + f < 60 := by
    have : secondsField [digitChar a, digitChar b, ':', digitChar c, digitChar d, ':',
        digitChar e, digitChar f, ',', digitChar g, digitChar h, digitChar i] =
        natOfDigits [digitChar e, digitChar f] := rfl
    rw [this, natOfDigits_pair he hf] at hs
    exact hs
  rw [parseTimeToSeconds_eq,
    timecodeToSeconds_digits ha hb hc hd he hf hg hh hi,
    formatSecondsToTime_msGrid]
  have e1 : (3600000 * (10 * a + b) + 60000 * (10 * c + d) + 1000 * (10 * e + f) +
      (100 * g + 10 * h + i)) / 3600000 = 10 * a + b := by omega
  have e2 : (3600000 * (10 * a + b) + 60000 * (10 * c + d) + 1000 * (10 * e + f) +
      (100 * g + 10 * h + i)) % 3600000 / 60000 = 10 * c + d := by omega
  have e3 : (3600000 * (10 * a + b) + 60000 * (10 * c + d) + 1000 * (10 * e + f) +
      (100 * g + 10 * h + i)) % 60000 / 1000 = 10 * e + f := by omega
  have e4 : (3600000 * (10 * a + b) + 60000 * (10 * c + d) + 1000 * (10 * e + f) +
      (100 * g + 10 * h + i)) % 1000 = 100 * g + 10 * h + i := by omega
  rw [e1, e2, e3, e4, pad2_eq (by omega), pad2_eq (by omega), pad2_eq (by omega),
    pad3_eq (by omega)]
  rw [show (10 * a + b) / 10 = a from by omega, show (10 * a + b) % 10 = b from by omega,
    show (10 * c + d) / 10 = c from by omega, show (10 * c + d) % 10 = d from by omega,
    show (10 * e + f) / 10 = e from by omega, show (10 * e + f) % 10 = f from by omega,
    show (100 * g + 10 * h + i) / 100 = g from by omega,
    show (100 * g + 10 * h + i) / 10 % 10 = h from by omega,
    show (100 * g + 10 * h + i) % 10 = i from by omega]
  rfl

/-- Witness for the amended C3 statement at `"01:02:03,456"`. -/
theorem timecode_roundtrip_valid_fields_witness :
    TimecodeUtils.isValidTimecode (tc "01:02:03,456") = true ∧
    minutesField (tc "01:02:03,456") < 60 ∧
    secondsField (tc "01:02:03,456") < 60 ∧
    TimeUtils.formatSecondsToTime (TimeUtils.parseTimeToSeconds (tc "01:02:03,456")) =
      tc "01:02:03,456" :=
  ⟨by decide, by decide, by decide,
    timecode_roundtrip_valid_fields (tc "01:02:03,456") (by decide) (by decide) (by decide)⟩

/-! ## Toolkit: parsing back a rendered timecode -/

theorem padStart_natToString_digits (k n : ℕ) :
    ∀ c ∈ padStart k '0' (natToString n), ∃ d, d < 10 ∧ c = digitChar d := by
  intro c hc
  rw [padStart] at hc
  rcases List.mem_append.mp hc with h | h
  · have hc0 : c = '0' := List.eq_of_mem_replicate h
    exact ⟨0, by omega, by rw [hc0]; decide⟩
  · exact natToString_digits n c h

theorem comma_notin_pad (k n : ℕ) : ',' ∉ padStart k '0' (natToString n) := by
  intro hm
  obtain ⟨d, hd, he⟩ := padStart_natToString_digits k n ',' hm
  exact digitChar_ne hd ',' (by decide) he.symm

theorem colon_notin_pad (k n : ℕ) : ':' ∉ padStart k '0' (natToString n) := by
  intro hm
  obtain ⟨d, hd, he⟩ := padStart_natToString_digits k n ':' hm
  exact digitChar_ne hd ':' (by decide) he.symm

theorem natOfDigits_pad_natToString (k n : ℕ) :
    natOfDigits (padStart k '0' (natToString n)) = n := by
  rw [natOfDigits_padStart, natOfDigits_natToString]

/-- Parsing the canonical rendering of `H:M:S,ms` (with in-range minute,
second and millisecond components; hours unbounded). -/
theorem timecodeToSeconds_render (H M S ms : ℕ) :
    TimecodeUtils.timecodeToSeconds
      (padStart 2 '0' (natToString H) ++ ':' ::
        (padStart 2 '0' (natToString M) ++ ':' ::
          (padStart 2 '0' (natToString S) ++ ',' :: padStart 3 '0' (natToString ms)))) =
    ((3600000 * H + 60000 * M + 1000 * S + ms : ℕ) : ℚ) / 1000 := by
  have hassoc :
      padStart 2 '0' (natToString H) ++ ':' ::
        (padStart 2 '0' (natToString M) ++ ':' ::
          (padStart 2 '0' (natToString S) ++ ',' :: padStart 3 '0' (natToString ms))) =
      (padStart 2 '0' (natToString H) ++ ':' ::
        (padStart 2 '0' (natToString M) ++ ':' :: padStart 2 '0' (natToString S))) ++
        ',' :: padStart 3 '0' (natToString ms) := by
    simp [List.append_assoc]
  have hfront : ',' ∉ padStart 2 '0' (natToString H) ++ ':' ::
      (padStart 2 '0' (natToString M) ++ ':' :: padStart 2 '0' (natToString S)) := by
    intro hm
    rcases List.mem_append.mp hm with h | h
    · exact comma_notin_pad 2 H h
    · rcases List.mem_cons.mp h with h | h
      · exact absurd h (by decide)
      · rcases List.mem_append.mp h with h | h
        · exact comma_notin_pad 2 M h
        · rcases List.mem_cons.mp h with h | h
          · exact absurd h (by decide)
          · exact comma_notin_pad 2 S h
  unfold TimecodeUtils.timecodeToSeconds
  rw [hassoc, splitOnChar_append_sep _ hfront,
    splitOnChar_not_mem (comma_notin_pad 3 ms)]
  simp only [List.getD_cons_zero, List.getD_cons_succ]
  rw [splitOnChar_append_sep _ (colon_notin_pad 2 H),
    splitOnChar_append_sep _ (colon_notin_pad 2 M),
    splitOnChar_not_mem (colon_notin_pad 2 S)]
  simp only [List.getD_cons_zero, List.getD_cons_succ]
  rw [natOfDigits_pad_natToString, natOfDigits_pad_natToString, natOfDigits_pad_natToString,
    natOfDigits_pad_natToString]
  push_cast
  ring

/-! ## C5 — `addSecondsToTimecode` adds exact milliseconds, unclamped -/

theorem pad_neg_head {i : ℤ} (h : i < 0) :
    padStart 2 '0' (intToString i) = intToString i ∧ (intToString i).head? = some '-' := by
  obtain ⟨ds, hds, hne⟩ := intToString_neg_head h
  rw [hds]
  constructor
  · rw [padStart]
    have : 2 - ('-' :: ds).length = 0 := by
      cases ds with
      | nil => exact absurd rfl hne
      | cons x u => simp [List.length_cons]
    rw [this]
    rfl
  · rfl

theorem render_neg_ne_zero (h' m' s' : ℤ) (msq : ℚ) (hh : h' < 0) :
    padStart 2 '0' (intToString h') ++ ':' ::
      (padStart 2 '0' (intToString m') ++ ':' ::
        (padStart 2 '0' (intToString s') ++ ',' :: padStart 3 '0' (MsRev.ratToString msq))) ≠
    tc "00:00:00,000" := by
  obtain ⟨hpad, hhead⟩ := pad_neg_head hh
  intro heq
  have hh1 : (padStart 2 '0' (intToString h') ++ ':' ::
      (padStart 2 '0' (intToString m') ++ ':' ::
        (padStart 2 '0' (intToString s') ++ ',' :: padStart 3 '0'
          (MsRev.ratToString msq)))).head? = some '-' := by
    rw [hpad]
    obtain ⟨ds, hds, hne⟩ := intToString_neg_head hh
    rw [hds]
    rfl
  rw [heq] at hh1
  exact absurd hh1 (by decide)

theorem floor_div_neg_3600000 {q : ℚ} (h : q < 0) : ⌊q / 3600000⌋ < 0 := by
  have h1 : q / 3600000 < 0 := div_neg_of_neg_of_pos h (by norm_num)
  have h2 : (⌊q / 3600000⌋ : ℚ) ≤ q / 3600000 := Int.floor_le _
  exact_mod_cast lt_of_le_of_lt h2 h1

/-- Closed form of `addSecondsToTimecode` on a canonical timecode. -/
theorem addSecondsToTimecode_digits {a b c d e f g h i : ℕ} (ha : a < 10) (hb : b < 10)
    (hc : c < 10) (hd : d < 10) (he : e < 10) (hf : f < 10) (hg : g < 10) (hh : h < 10)
    (hi : i < 10) (delta : ℚ) :
    MsRev.addSecondsToTimecode
      [digitChar a, digitChar b, ':', digitChar c, digitChar d, ':', digitChar e, digitChar f,
        ',', digitChar g, digitChar h, digitChar i] delta =
    padStart 2 '0' (intToString
        ⌊(((3600000 * (10 * a + b) + 60000 * (10 * c + d) + 1000 * (10 * e + f) +
            (100 * g + 10 * h + i) : ℕ) : ℚ) + delta * 1000) / 3600000⌋) ++ ':' ::
      (padStart 2 '0' (intToString
          ⌊jsMod (((3600000 * (10 * a + b) + 60000 * (10 * c + d) + 1000 * (10 * e + f) +
              (100 * g + 10 * h + i) : ℕ) : ℚ) + delta * 1000) 3600000 / 60000⌋) ++ ':' ::
        (padStart 2 '0' (intToString
            ⌊jsMod (((3600000 * (10 * a + b) + 60000 * (10 * c + d) + 1000 * (10 * e + f) +
                (100 * g + 10 * h + i) : ℕ) : ℚ) + delta * 1000) 60000 / 1000⌋) ++ ',' ::
          padStart 3 '0' (MsRev.ratToString
            (jsMod (((3600000 * (10 * a + b) + 60000 * (10 * c + d) + 1000 * (10 * e + f) +
                (100 * g + 10 * h + i) : ℕ) : ℚ) + delta * 1000) 1000)))) := by
  unfold MsRev.addSecondsToTimecode
  simp only [splitOnChar, consHead, digitChar_beq_comma ha, digitChar_beq_comma hb,
    digitChar_beq_comma hc, digitChar_beq_comma hd, digitChar_beq_comma he,
    digitChar_beq_comma hf, digitChar_beq_comma hg, digitChar_beq_comma hh,
    digitChar_beq_comma hi, (by decide : (':' == ',') = false),
    (by decide : (',' == ',') = true), Bool.false_eq_true, if_false, if_true,
    digitChar_beq_colon ha, digitChar_beq_colon hb, digitChar_beq_colon hc,
    digitChar_beq_colon hd, digitChar_beq_colon he, digitChar_beq_colon hf,
    digitChar_beq_colon hg, digitChar_beq_colon hh, digitChar_beq_colon hi,
    (by decide : (':' == ':') = true), List.getD_cons_zero, List.getD_cons_succ]
  rw [natOfDigits_pair ha hb, natOfDigits_pair hc hd, natOfDigits_pair he hf,
    natOfDigits_triple hg hh hi]
  push_cast
  ring_nf

theorem floor_div_lit (n M : ℕ) (L : ℚ) (hL : L = (M : ℚ)) :
    ⌊(n : ℚ) / L⌋ = ((n / M : ℕ) : ℤ) := by
  rw [hL, floor_natCast_div]

theorem jsMod_lit (n M : ℕ) (hM : 0 < M) (L : ℚ) (hL : L = (M : ℚ)) :
    jsMod (n : ℚ) L = ((n % M : ℕ) : ℚ) := by
  rw [hL, jsMod_natCast n M hM]

theorem ratToString_natCast (m : ℕ) : MsRev.ratToString ((m : ℕ) : ℚ) = natToString m := by
  rw [MsRev.ratToString, if_pos (by simp : ((m : ℕ) : ℚ).den = 1)]
  rw [show ((m : ℕ) : ℚ).num = (m : ℤ) from by simp, intToString_ofNat]

/-- Parsing the rendering produced by `addSecondsToTimecode` for a
nonnegative integral total of `n` milliseconds gives `n / 1000` seconds. -/
theorem msRender_parse (n : ℕ) :
    TimecodeUtils.timecodeToSeconds
      (padStart 2 '0' (intToString ⌊(n : ℚ) / 3600000⌋) ++ ':' ::
        (padStart 2 '0' (intToString ⌊jsMod (n : ℚ) 3600000 / 60000⌋) ++ ':' ::
          (padStart 2 '0' (intToString ⌊jsMod (n : ℚ) 60000 / 1000⌋) ++ ',' ::
            padStart 3 '0' (MsRev.ratToString (jsMod (n : ℚ) 1000))))) = (n : ℚ) / 1000 := by
  rw [floor_div_lit n 3600000 3600000 (by norm_num),
    jsMod_lit n 3600000 (by omega) 3600000 (by norm_num),
    jsMod_lit n 60000 (by omega) 60000 (by norm_num),
    jsMod_lit n 1000 (by omega) 1000 (by norm_num),
    floor_div_lit (n % 3600000) 60000 60000 (by norm_num),
    floor_div_lit (n % 60000) 1000 1000 (by norm_num),
    ratToString_natCast, intToString_ofNat, intToString_ofNat, intToString_ofNat,
    timecodeToSeconds_render]
  rw [show 3600000 * (n / 3600000) + 60000 * (n % 3600000 / 60000) +
      1000 * (n % 60000 / 1000) + n % 1000 = n from by omega]

/-- C5: `addSecondsToTimecode` computes through exact integer
milliseconds — for any in-range result the parsed value of the output is
exactly the parsed input plus the delta — and it does not clamp below
zero: when the total becomes negative the result is a (negative-marked)
rendering, never `00:00:00,000`. -/
theorem addSecondsToTimecode_adds_unclamped :
    ∀ (t : List Char) (delta : ℚ), MsRev.isValidTimecode t = true →
      (((totalMsOf t : ℚ) + delta * 1000 < 0 →
        MsRev.addSecondsToTimecode t delta ≠ tc "00:00:00,000") ∧
      (∀ n : ℕ, ((totalMsOf t : ℚ) + delta * 1000 = (n : ℚ)) →
        TimecodeUtils.timecodeToSeconds (MsRev.addSecondsToTimecode t delta) =
          TimecodeUtils.timecodeToSeconds t + delta)) := by
  intro t delta hv
  obtain ⟨a, b, c, d, e, f, g, h, i, ha, hb, hc, hd, he, hf, hg, hh, hi, rfl⟩ :=
    isValidTimecode_destruct hv
  have htm : totalMsOf [digitChar a, digitChar b, ':', digitChar c, digitChar d, ':',
      digitChar e, digitChar f, ',', digitChar g, digitChar h, digitChar i] =
      3600000 * (10 * a + b) + 60000 * (10 * c + d) + 1000 * (10 * e + f) +
        (100 * g + 10 * h + i) := by
    unfold totalMsOf hoursField minutesField secondsField msField
    rw [show ([digitChar a, digitChar b, ':', digitChar c, digitChar d, ':', digitChar e,
        digitChar f, ',', digitChar g, digitChar h, digitChar i].take 2) =
        [digitChar a, digitChar b] from rfl]
    rw [show (([digitChar a, digitChar b, ':', digitChar c, digitChar d, ':', digitChar e,
        digitChar f, ',', digitChar g, digitChar h, digitChar i].drop 3).take 2) =
        [digitChar c, digitChar d] from rfl]
    rw [show (([digitChar a, digitChar b, ':', digitChar c, digitChar d, ':', digitChar e,
        digitChar f, ',', digitChar g, digitChar h, digitChar i].drop 6).take 2) =
        [digitChar e, digitChar f] from rfl]
    rw [show (([digitChar a, digitChar b, ':', digitChar c, digitChar d, ':', digitChar e,
        digitChar f, ',', digitChar g, digitChar h, digitChar i].drop 9).take 3) =
        [digitChar g, digitChar h, digitChar i] from rfl]
    rw [natOfDigits_pair ha hb, natOfDigits_pair hc hd, natOfDigits_pair he hf,
      natOfDigits_triple hg hh hi]
  constructor
  · intro hneg
    rw [addSecondsToTimecode_digits ha hb hc hd he hf hg hh hi delta]
    apply render_neg_ne_zero
    apply floor_div_neg_3600000
    rw [htm] at hneg
    exact hneg
  · intro n hn
    rw [htm] at hn
    rw [addSecondsToTimecode_digits ha hb hc hd he hf hg hh hi delta, hn, msRender_parse n,
      timecodeToSeconds_digits ha hb hc hd he hf hg hh hi]
    push_cast at hn ⊢
    linarith

/-- Witness for C5: `00:00:01,000` minus two seconds stays unclamped, and
`00:00:00,999` plus one millisecond parses to exactly one second. -/
theorem addSecondsToTimecode_adds_unclamped_witness :
    MsRev.isValidTimecode (tc "00:00:01,000") = true ∧
    ((totalMsOf (tc "00:00:01,000") : ℚ) + (-2 : ℚ) * 1000 < 0 →
      MsRev.addSecondsToTimecode (tc "00:00:01,000") (-2) ≠ tc "00:00:00,000") ∧
    MsRev.isValidTimecode (tc "00:00:00,999") = true ∧
    (∀ n : ℕ, ((totalMsOf (tc "00:00:00,999") : ℚ) + (1 / 1000 : ℚ) * 1000 = (n : ℚ)) →
      TimecodeUtils.timecodeToSeconds
          (MsRev.addSecondsToTimecode (tc "00:00:00,999") (1 / 1000)) =
        TimecodeUtils.timecodeToSeconds (tc "00:00:00,999") + 1 / 1000) ∧
    MsRev.addSecondsToTimecode (tc "00:00:01,000") (-2) = tc "-1:-1:-1,000" ∧
    MsRev.addSecondsToTimecode (tc "00:00:00,999") (1 / 1000) = tc "00:00:01,000" :=
  ⟨by decide, (addSecondsToTimecode_adds_unclamped (tc "00:00:01,000") (-2) (by decide)).1,
    by decide,
    (addSecondsToTimecode_adds_unclamped (tc "00:00:00,999") (1 / 1000) (by decide)).2,
    by decide, by decide⟩

/-! ## Toolkit: SRT block structure -/

theorem hasNN_cons_eq (c : Char) (r : List Char) :
    hasNN (c :: r) = if c = '\n' ∧ r.head? = some '\n' then true else hasNN r := by
  by_cases hc : c = '\n'
  · subst hc
    rcases r with _ | ⟨c2, r2⟩
    · simp [hasNN]
    · by_cases h2 : c2 = '\n'
      · subst h2; simp [hasNN]
      · simp only [List.head?_cons, Option.some.injEq]
        rw [if_neg (by tauto)]
        rcases r2 with _ | ⟨c3, r3⟩ <;> simp [hasNN, h2]
  · rw [if_neg (by tauto)]
    rcases r with _ | ⟨c2, r2⟩ <;> simp [hasNN, hc]

theorem splitBlocks_cons_step (c : Char) (r : List Char) (hc : c ≠ '\r')
    (hcn : c = '\n' → r.head? ≠ some '\n' ∧ r.head? ≠ some '\r') :
    splitBlocks (c :: r) = consHead c (splitBlocks r) := by
  by_cases h : c = '\n'
  · subst h
    obtain ⟨h1, h2⟩ := hcn rfl
    rcases r with _ | ⟨c2, r2⟩
    · rfl
    · simp only [List.head?_cons, ne_eq, Option.some.injEq] at h1 h2
      simp [splitBlocks, h1, h2]
  · simp [splitBlocks, h, hc]

theorem splitLines_cons_step (c : Char) (r : List Char) (hc : c ≠ '\r') (hn : c ≠ '\n') :
    splitLines (c :: r) = consHead c (splitLines r) := by
  simp [splitLines, hc, hn]

theorem splitOnArrow_cons_step (c : Char) (r : List Char) (hc : c ≠ '-') :
    splitOnArrow (c :: r) = consHead c (splitOnArrow r) := by
  simp [splitOnArrow, hc]

theorem containsArrow_cons_step (c : Char) (r : List Char) (hc : c ≠ '-') :
    containsArrow (c :: r) = containsArrow r := by
  simp [containsArrow, hc]

theorem containsArrow_of_no_dash {l : List Char} (h : ∀ c ∈ l, c ≠ '-') :
    containsArrow l = false := by
  induction l with
  | nil => rfl
  | cons c r ih =>
    rw [containsArrow_cons_step c r (h c (by simp))]
    exact ih fun x hx => h x (List.mem_cons_of_mem c hx)

theorem containsArrow_cons_true (c : Char) (l : List Char) (h : containsArrow l = true) :
    containsArrow (c :: l) = true := by
  by_cases hc : c = '-'
  · subst hc
    rcases l with _ | ⟨c2, l2⟩
    · simp [containsArrow] at h
    · by_cases h2 : c2 = '-'
      · subst h2
        rcases l2 with _ | ⟨c3, l3⟩
        · simp [containsArrow] at h
        · by_cases h3 : c3 = '>'
          · subst h3
            simp [containsArrow]
          · rw [show containsArrow ('-' :: '-' :: c3 :: l3) = containsArrow ('-' :: c3 :: l3)
              from by simp [containsArrow, h3]]
            exact h
      · rw [show containsArrow ('-' :: c2 :: l2) = containsArrow (c2 :: l2)
          from by simp [containsArrow, h2]]
        exact h
  · rw [containsArrow_cons_step c l hc]
    exact h

theorem containsArrow_append_arrow (a r : List Char) :
    containsArrow (a ++ '-' :: '-' :: '>' :: r) = true := by
  induction a with
  | nil => rfl
  | cons c t ih =>
    rw [List.cons_append]
    exact containsArrow_cons_true c _ ih

theorem splitOnArrow_no_dash {a : List Char} (h : ∀ c ∈ a, c ≠ '-') :
    splitOnArrow a = [a] := by
  induction a with
  | nil => rfl
  | cons c t ih =>
    rw [splitOnArrow_cons_step c t (h c (by simp)),
      ih fun x hx => h x (List.mem_cons_of_mem c hx)]
    rfl

theorem splitOnArrow_append_arrow {a : List Char} (r : List Char) (h : ∀ c ∈ a, c ≠ '-') :
    splitOnArrow (a ++ '-' :: '-' :: '>' :: r) = a :: splitOnArrow r := by
  induction a with
  | nil => rfl
  | cons c t ih =>
    rw [List.cons_append, splitOnArrow_cons_step c _ (h c (by simp)),
      ih fun x hx => h x (List.mem_cons_of_mem c hx)]
    rfl

theorem mem_of_head?_eq {α : Type} {x : α} {l : List α} (h : l.head? = some x) : x ∈ l := by
  cases l with
  | nil => simp at h
  | cons a t =>
    simp only [List.head?_cons, Option.some.injEq] at h
    subst h
    exact List.mem_cons_self _ _

theorem splitBlocks_no_sep {l : List Char} (hnn : hasNN l = false) (hcr : '\r' ∉ l) :
    splitBlocks l = [l] := by
  induction l with
  | nil => rfl
  | cons c r ih =>
    have hc : c ≠ '\r' := fun he => hcr (he ▸ List.mem_cons_self c r)
    rw [hasNN_cons_eq] at hnn
    have hsplit : ¬(c = '\n' ∧ r.head? = some '\n') := by
      intro hand
      rw [if_pos hand] at hnn
      cases hnn
    rw [if_neg hsplit] at hnn
    rw [splitBlocks_cons_step c r hc ?hstep]
    case hstep =>
      intro hcn
      constructor
      · intro hrn
        exact hsplit ⟨hcn, hrn⟩
      · intro hrr
        exact hcr (List.mem_cons_of_mem c (mem_of_head?_eq hrr))
    rw [ih hnn fun hm => hcr (List.mem_cons_of_mem c hm)]
    rfl

theorem splitBlocks_append_sep :
    ∀ {b : List Char} (r : List Char), hasNN b = false → '\r' ∉ b →
      b.getLast? ≠ some '\n' → r.head? ≠ some '\n' → r.head? ≠ some '\r' →
      splitBlocks (b ++ '\n' :: '\n' :: r) = b :: splitBlocks r := by
  intro b
  induction b with
  | nil => intro r _ _ _ _ _; rfl
  | cons c t ih =>
    intro r hnn hcr hlast hr1 hr2
    have hc : c ≠ '\r' := fun he => hcr (he ▸ List.mem_cons_self c t)
    rw [hasNN_cons_eq] at hnn
    have hsplit : ¬(c = '\n' ∧ t.head? = some '\n') := by
      intro hand
      rw [if_pos hand] at hnn
      cases hnn
    rw [if_neg hsplit] at hnn
    cases t with
    | nil =>
      have hcn : c ≠ '\n' := by
        intro he
        exact hlast (by rw [he]; rfl)
      rw [List.cons_append, List.nil_append,
        splitBlocks_cons_step c ('\n' :: '\n' :: r) hc (fun he => absurd he hcn)]
      rfl
    | cons d t' =>
      have hlast' : (d :: t').getLast? ≠ some '\n' := by
        rwa [List.getLast?_cons_cons] at hlast
      have hcr' : '\r' ∉ d :: t' := fun hm => hcr (List.mem_cons_of_mem c hm)
      rw [List.cons_append, splitBlocks_cons_step c _ hc ?hstep]
      case hstep =>
        intro hcn
        rw [List.cons_append, List.head?_cons]
        constructor
        · intro hdn
          exact hsplit ⟨hcn, by simp only [List.head?_cons]; exact hdn⟩
        · intro hdr
          simp only [Option.some.injEq] at hdr
          exact hcr' (hdr ▸ List.mem_cons_self d t')
      rw [ih r hnn hcr' hlast' hr1 hr2]
      rfl

theorem joinSep_head? {sep : List Char} :
    ∀ (b : List Char) (rest : List (List Char)), b ≠ [] →
      (joinSep sep (b :: rest)).head? = b.head? := by
  intro b rest hb
  cases rest with
  | nil => rfl
  | cons x u =>
    rw [joinSep_cons sep b (x :: u) (by simp), List.append_assoc, List.head?_append]
    cases b with
    | nil => exact absurd rfl hb
    | cons y v => rfl

theorem splitBlocks_joinSep :
    ∀ blocks : List (List Char), blocks ≠ [] →
      (∀ b ∈ blocks, b ≠ [] ∧ hasNN b = false ∧ '\r' ∉ b ∧ b.getLast? ≠ some '\n' ∧
        b.head? ≠ some '\n' ∧ b.head? ≠ some '\r') →
      splitBlocks (joinSep ['\n', '\n'] blocks) = blocks := by
  intro blocks
  induction blocks with
  | nil => intro h; exact absurd rfl h
  | cons b rest ih =>
    intro _ hall
    obtain ⟨hbne, hbnn, hbcr, hblast, _, _⟩ := hall b (by simp)
    cases rest with
    | nil => exact splitBlocks_no_sep hbnn hbcr
    | cons b2 rest2 =>
      rw [joinSep_cons _ b (b2 :: rest2) (by simp), List.append_assoc]
      rw [show ['\n', '\n'] ++ joinSep ['\n', '\n'] (b2 :: rest2) =
        '\n' :: '\n' :: joinSep ['\n', '\n'] (b2 :: rest2) from rfl]
      obtain ⟨hb2ne, _, _, _, hb2h1, hb2h2⟩ := hall b2 (by simp)
      have hjh : (joinSep ['\n', '\n'] (b2 :: rest2)).head? = b2.head? :=
        joinSep_head? b2 rest2 hb2ne
      rw [splitBlocks_append_sep _ hbnn hbcr hblast (by rw [hjh]; exact hb2h1)
        (by rw [hjh]; exact hb2h2)]
      rw [ih (by simp) fun x hx => hall x (List.mem_cons_of_mem b hx)]

theorem splitLines_append_sep {a : List Char} (r : List Char)
    (ha : ∀ c ∈ a, c ≠ '\n' ∧ c ≠ '\r') :
    splitLines (a ++ '\n' :: r) = a :: splitLines r := by
  induction a with
  | nil => rfl
  | cons c t ih =>
    obtain ⟨h1, h2⟩ := ha c (by simp)
    rw [List.cons_append, splitLines_cons_step c _ h2 h1,
      ih fun x hx => ha x (List.mem_cons_of_mem c hx)]
    rfl

theorem splitLines_eq_splitOnChar {t : List Char} (hcr : '\r' ∉ t) :
    splitLines t = splitOnChar '\n' t := by
  induction t with
  | nil => rfl
  | cons c r ih =>
    have hcr' : '\r' ∉ r := fun hm => hcr (List.mem_cons_of_mem c hm)
    by_cases hc : c = '\n'
    · subst hc
      rw [show splitLines ('\n' :: r) = [] :: splitLines r from rfl, ih hcr']
      simp [splitOnChar]
    · rw [splitLines_cons_step c r (fun he => hcr (he ▸ List.mem_cons_self c r)) hc, ih hcr']
      rw [show splitOnChar '\n' (c :: r) = consHead c (splitOnChar '\n' r) from by
        simp [splitOnChar, hc]]

theorem joinSep_splitLines {t : List Char} (hcr : '\r' ∉ t) :
    joinSep ['\n'] (splitLines t) = t := by
  rw [splitLines_eq_splitOnChar hcr, joinSep_splitOnChar]

theorem getLast?_cons_of_ne_nil {α : Type} (c : α) {l : List α} (h : l ≠ []) :
    (c :: l).getLast? = l.getLast? := by
  cases l with
  | nil => exact absurd rfl h
  | cons x t => exact List.getLast?_cons_cons

theorem hasNN_of_not_lf {l : List Char} (h : '\n' ∉ l) : hasNN l = false := by
  induction l with
  | nil => rfl
  | cons c r ih =>
    rw [hasNN_cons_eq, if_neg (fun hand : c = '\n' ∧ r.head? = some '\n' =>
      h (hand.1 ▸ List.mem_cons_self c r))]
    exact ih fun hm => h (List.mem_cons_of_mem c hm)

theorem hasNN_false_cons {c : Char} {r : List Char} (h : hasNN (c :: r) = false) :
    ¬(c = '\n' ∧ r.head? = some '\n') ∧ hasNN r = false := by
  rw [hasNN_cons_eq] at h
  by_cases hand : c = '\n' ∧ r.head? = some '\n'
  · rw [if_pos hand] at h
    cases h
  · rw [if_neg hand] at h
    exact ⟨hand, h⟩

theorem hasNN_append_of : ∀ {a : List Char} (b : List Char), hasNN a = false →
    hasNN b = false → (a.getLast? ≠ some '\n' ∨ b.head? ≠ some '\n') →
    hasNN (a ++ b) = false := by
  intro a
  induction a with
  | nil => intro b _ hb _; exact hb
  | cons c t ih =>
    intro b ha hb hj
    obtain ⟨hcnot, ht⟩ := hasNN_false_cons ha
    rw [List.cons_append, hasNN_cons_eq]
    cases t with
    | nil =>
      simp only [List.nil_append]
      have hj' : c ≠ '\n' ∨ b.head? ≠ some '\n' := by
        rcases hj with hj | hj
        · left; intro he; exact hj (by rw [he]; rfl)
        · right; exact hj
      rw [if_neg (by tauto)]
      exact hb
    | cons d t' =>
      have hhead : ((d :: t') ++ b).head? = some d := rfl
      rw [if_neg ?hcond]
      case hcond =>
        intro hand
        rw [hhead] at hand
        have hd : d = '\n' := Option.some.inj hand.2
        exact hcnot ⟨hand.1, by rw [List.head?_cons, hd]⟩
      refine ih b ht hb ?_
      rcases hj with hj | hj
      · left
        rwa [getLast?_cons_of_ne_nil c (by simp)] at hj
      · right; exact hj

theorem natToString_char_facts (n : ℕ) : ∀ c ∈ natToString n,
    wsChar c = false ∧ c ≠ '-' ∧ c ≠ '\n' ∧ c ≠ '\r' ∧ c ≠ ':' ∧ c.isDigit = true := by
  intro c hc
  obtain ⟨d, hd, rfl⟩ := natToString_digits n c hc
  exact ⟨digitChar_not_ws hd, digitChar_ne hd '-' (by decide), digitChar_ne hd '\n' (by decide),
    digitChar_ne hd '\r' (by decide), digitChar_ne hd ':' (by decide), digitChar_isDigit hd⟩

theorem not_lf_of_not_ws {c : Char} (h : wsChar c = false) : c ≠ '\n' := by
  intro he
  rw [he] at h
  cases h

theorem not_cr_of_not_ws {c : Char} (h : wsChar c = false) : c ≠ '\r' := by
  intro he
  rw [he] at h
  cases h

theorem head?_append_of_ne_nil {α : Type} {l : List α} (l' : List α) (h : l ≠ []) :
    (l ++ l').head? = l.head? := by
  cases l with
  | nil => exact absurd rfl h
  | cons c t => rfl

theorem mem_of_getLast?_eq {α : Type} {x : α} {l : List α} (h : l.getLast? = some x) :
    x ∈ l := by
  rw [← List.head?_reverse] at h
  exact List.mem_reverse.mp (mem_of_head?_eq h)

theorem isEmpty_false_of_ne_nil {α : Type} {l : List α} (h : l ≠ []) : l.isEmpty = false := by
  cases l with
  | nil => exact absurd rfl h
  | cons c t => rfl

theorem jsTrim_ne_nil_of_head {l : List Char} {c : Char} (hh : l.head? = some c)
    (hc : wsChar c = false) : jsTrim l ≠ [] := by
  intro htrim
  have hself : l.dropWhile wsChar = l :=
    dropWhile_ws_eq_self (by intro x hx; rw [hh] at hx; simp at hx; rwa [← hx])
  rw [jsTrim, hself] at htrim
  have h2 : l.reverse.dropWhile wsChar = [] := by
    have := congrArg List.reverse htrim
    rwa [List.reverse_reverse, List.reverse_nil] at this
  rw [List.dropWhile_eq_nil_iff] at h2
  have hcmem : c ∈ l.reverse := List.mem_reverse.mpr (mem_of_head?_eq hh)
  have := h2 c hcmem
  rw [hc] at this
  cases this

/-- The serialized block, with its timecode line re-associated out. -/
theorem blockOf_assoc (s : Subtitle) :
    SrtCodec.blockOf s = natToString s.id ++ '\n' ::
      ((s.startTime ++ ' ' :: '-' :: '-' :: '>' :: ' ' :: s.endTime) ++ '\n' :: s.text) := by
  unfold SrtCodec.blockOf
  simp [List.append_assoc]

theorem tcLine_assoc (s : Subtitle) :
    s.startTime ++ ' ' :: '-' :: '-' :: '>' :: ' ' :: s.endTime =
      (s.startTime ++ [' ']) ++ '-' :: '-' :: '>' :: ' ' :: s.endTime := by
  simp [List.append_assoc]

/-- The serialized block in fully right-nested form. -/
theorem blockOf_ras (s : Subtitle) :
    SrtCodec.blockOf s = natToString s.id ++ '\n' ::
      (s.startTime ++ ' ' :: '-' :: '-' :: '>' :: ' ' :: (s.endTime ++ '\n' :: s.text)) := by
  unfold SrtCodec.blockOf
  simp [List.append_assoc]

/-- Canonical segments serialize to blocks with the shape `splitBlocks`
preserves. -/
theorem blockOf_good (s : Subtitle) (hs : goodSub s) :
    SrtCodec.blockOf s ≠ [] ∧ hasNN (SrtCodec.blockOf s) = false ∧
    '\r' ∉ SrtCodec.blockOf s ∧ (SrtCodec.blockOf s).getLast? ≠ some '\n' ∧
    (SrtCodec.blockOf s).head? ≠ some '\n' ∧ (SrtCodec.blockOf s).head? ≠ some '\r' := by
  obtain ⟨⟨htne, htcr, htnn, hthead, htlast⟩, ⟨hsne, hstchars⟩, ⟨hene, hetchars⟩⟩ := hs
  have hidne : natToString s.id ≠ [] := natToString_ne_nil s.id
  have hstne' : s.startTime ++ ' ' :: '-' :: '-' :: '>' :: ' ' ::
      (s.endTime ++ '\n' :: s.text) ≠ [] := by
    cases hsl : s.startTime with
    | nil => exact absurd hsl hsne
    | cons x u => simp
  constructor
  · rw [blockOf_ras]
    cases hid : natToString s.id with
    | nil => exact absurd hid hidne
    | cons x u => simp
  refine ⟨?_, ?_, ?_, ?_, ?_⟩
  · -- no blank line anywhere in the block
    rw [blockOf_ras]
    have h1 : hasNN ('\n' :: s.text) = false := by
      rw [hasNN_cons_eq, if_neg (fun hand => hthead hand.2), htnn]
    have h2 : hasNN (s.endTime ++ '\n' :: s.text) = false := by
      refine hasNN_append_of _ (hasNN_of_not_lf ?_) h1 (Or.inl ?_)
      · intro hm
        exact not_lf_of_not_ws (hetchars '\n' hm).1 rfl
      · intro hlast
        exact not_lf_of_not_ws (hetchars '\n' (mem_of_getLast?_eq hlast)).1 rfl
    have h3 : hasNN (' ' :: '-' :: '-' :: '>' :: ' ' :: (s.endTime ++ '\n' :: s.text)) =
        false := by
      rw [hasNN_cons_eq, if_neg (fun hand => absurd hand.1 (by decide))]
      rw [hasNN_cons_eq, if_neg (fun hand => absurd hand.1 (by decide))]
      rw [hasNN_cons_eq, if_neg (fun hand => absurd hand.1 (by decide))]
      rw [hasNN_cons_eq, if_neg (fun hand => absurd hand.1 (by decide))]
      rw [hasNN_cons_eq, if_neg (fun hand => absurd hand.1 (by decide))]
      exact h2
    have h4 : hasNN (s.startTime ++ ' ' :: '-' :: '-' :: '>' :: ' ' ::
        (s.endTime ++ '\n' :: s.text)) = false := by
      refine hasNN_append_of _ (hasNN_of_not_lf ?_) h3 (Or.inr (by simp))
      intro hm
      exact not_lf_of_not_ws (hstchars '\n' hm).1 rfl
    have h5 : hasNN ('\n' :: (s.startTime ++ ' ' :: '-' :: '-' :: '>' :: ' ' ::
        (s.endTime ++ '\n' :: s.text))) = false := by
      rw [hasNN_cons_eq, if_neg ?hc, h4]
      case hc =>
        intro hand
        rw [head?_append_of_ne_nil _ hsne] at hand
        have := mem_of_head?_eq hand.2
        exact not_lf_of_not_ws (hstchars '\n' this).1 rfl
    refine hasNN_append_of _ (hasNN_of_not_lf ?_) h5 (Or.inl ?_)
    · intro hm
      exact (natToString_char_facts s.id '\n' hm).2.2.1 rfl
    · intro hlast
      exact (natToString_char_facts s.id '\n' (mem_of_getLast?_eq hlast)).2.2.1 rfl
  · -- no carriage return anywhere in the block
    rw [blockOf_ras]
    intro hm
    rcases List.mem_append.mp hm with hm | hm
    · exact (natToString_char_facts s.id '\r' hm).2.2.2.1 rfl
    · rcases List.mem_cons.mp hm with hm | hm
      · exact absurd hm (by decide)
      · rcases List.mem_append.mp hm with hm | hm
        · exact not_cr_of_not_ws (hstchars '\r' hm).1 rfl
        · rcases List.mem_cons.mp hm with hm | hm
          · exact absurd hm (by decide)
          · rcases List.mem_cons.mp hm with hm | hm
            · exact absurd hm (by decide)
            · rcases List.mem_cons.mp hm with hm | hm
              · exact absurd hm (by decide)
              · rcases List.mem_cons.mp hm with hm | hm
                · exact absurd hm (by decide)
                · rcases List.mem_cons.mp hm with hm | hm
                  · exact absurd hm (by decide)
                  · rcases List.mem_append.mp hm with hm | hm
                    · exact not_cr_of_not_ws (hetchars '\r' hm).1 rfl
                    · rcases List.mem_cons.mp hm with hm | hm
                      · exact absurd hm (by decide)
                      · exact htcr hm
  · -- the block does not end in a newline
    rw [blockOf_ras]
    rw [List.getLast?_append_of_ne_nil _ (by simp),
      getLast?_cons_of_ne_nil '\n' hstne',
      List.getLast?_append_of_ne_nil _ (by simp),
      getLast?_cons_of_ne_nil ' ' (by simp), getLast?_cons_of_ne_nil '-' (by simp),
      getLast?_cons_of_ne_nil '-' (by simp), getLast?_cons_of_ne_nil '>' (by simp),
      getLast?_cons_of_ne_nil ' ' (by simp),
      List.getLast?_append_of_ne_nil _ (by simp), getLast?_cons_of_ne_nil '\n' htne]
    intro hlast
    exact not_lf_of_not_ws (htlast '\n' hlast) rfl
  · -- the block starts with an id digit, not a newline
    rw [blockOf_ras, head?_append_of_ne_nil _ hidne]
    intro hh
    exact (natToString_char_facts s.id '\n' (mem_of_head?_eq hh)).2.2.1 rfl
  · rw [blockOf_ras, head?_append_of_ne_nil _ hidne]
    intro hh
    exact (natToString_char_facts s.id '\r' (mem_of_head?_eq hh)).2.2.2.1 rfl

/-- Parsing the serialized block of a canonical segment recovers its id,
timecodes and text. -/
theorem parseBlock_blockOf (s : Subtitle) (hs : goodSub s) :
    ∃ e, SrtCodec.parseBlock (SrtCodec.blockOf s) = some e ∧ ctrlE e = ctrl s := by
  obtain ⟨⟨htne, htcr, htnn, hthead, htlast⟩, ⟨hsne, hstchars⟩, ⟨hene, hetchars⟩⟩ := hs
  have hidne : natToString s.id ≠ [] := natToString_ne_nil s.id
  -- the whole block survives trimming
  have hhead : ∃ d, (SrtCodec.blockOf s).head? = some d ∧ wsChar d = false := by
    rw [blockOf_ras, head?_append_of_ne_nil _ hidne]
    cases hid : natToString s.id with
    | nil => exact absurd hid hidne
    | cons d u =>
      exact ⟨d, rfl,
        (natToString_char_facts s.id d (by rw [hid]; exact List.mem_cons_self d u)).1⟩
  obtain ⟨d, hdh, hdws⟩ := hhead
  have htrimne : jsTrim (SrtCodec.blockOf s) ≠ [] := jsTrim_ne_nil_of_head hdh hdws
  -- the three line groups
  have hlines : splitLines (SrtCodec.blockOf s) =
      natToString s.id :: (s.startTime ++ ' ' :: '-' :: '-' :: '>' :: ' ' :: s.endTime) ::
        splitLines s.text := by
    rw [blockOf_assoc,
      splitLines_append_sep _ (fun c hc => ⟨(natToString_char_facts s.id c hc).2.2.1,
        (natToString_char_facts s.id c hc).2.2.2.1⟩),
      splitLines_append_sep _ ?tc]
    case tc =>
      intro c hc
      simp only [List.mem_append, List.mem_cons] at hc
      rcases hc with hc | rfl | rfl | rfl | rfl | rfl | hc
      · exact ⟨not_lf_of_not_ws (hstchars c hc).1, not_cr_of_not_ws (hstchars c hc).1⟩
      · exact ⟨by decide, by decide⟩
      · exact ⟨by decide, by decide⟩
      · exact ⟨by decide, by decide⟩
      · exact ⟨by decide, by decide⟩
      · exact ⟨by decide, by decide⟩
      · exact ⟨not_lf_of_not_ws (hetchars c hc).1, not_cr_of_not_ws (hetchars c hc).1⟩
  -- the id line is found first
  have hidtrim : jsTrim (natToString s.id) = natToString s.id :=
    jsTrim_all_not_ws (fun c hc => (natToString_char_facts s.id c hc).1)
  have hidall : (natToString s.id).all Char.isDigit = true := by
    rw [List.all_eq_true]
    intro c hc
    exact (natToString_char_facts s.id c hc).2.2.2.2.2
  have hidp : (!(jsTrim (natToString s.id)).isEmpty &&
      (jsTrim (natToString s.id)).all Char.isDigit) = true := by
    rw [hidtrim, isEmpty_false_of_ne_nil hidne, hidall]
    rfl
  have hfind1 : List.find?
      (fun line => !(jsTrim line).isEmpty && (jsTrim line).all Char.isDigit)
      (natToString s.id :: (s.startTime ++ ' ' :: '-' :: '-' :: '>' :: ' ' :: s.endTime) ::
        splitLines s.text) = some (natToString s.id) :=
    List.find?_cons_of_pos _ hidp
  -- the timecode line is found second
  have hidarrow : containsArrow (natToString s.id) = false :=
    containsArrow_of_no_dash (fun c hc => (natToString_char_facts s.id c hc).2.1)
  have hTCarrow : containsArrow
      (s.startTime ++ ' ' :: '-' :: '-' :: '>' :: ' ' :: s.endTime) = true := by
    rw [tcLine_assoc]
    exact containsArrow_append_arrow _ _
  have hfind2 : List.find? containsArrow
      (natToString s.id :: (s.startTime ++ ' ' :: '-' :: '-' :: '>' :: ' ' :: s.endTime) ::
        splitLines s.text) =
      some (s.startTime ++ ' ' :: '-' :: '-' :: '>' :: ' ' :: s.endTime) := by
    rw [List.find?_cons_of_neg _ (by rw [hidarrow]; exact Bool.false_ne_true)]
    exact List.find?_cons_of_pos _ hTCarrow
  -- the id line is not the timecode line
  have hne1 : (natToString s.id ==
      (s.startTime ++ ' ' :: '-' :: '-' :: '>' :: ' ' :: s.endTime)) = false := by
    rw [beq_eq_false_iff_ne]
    intro he
    have hmem : '-' ∈ s.startTime ++ ' ' :: '-' :: '-' :: '>' :: ' ' :: s.endTime := by simp
    rw [← he] at hmem
    exact (natToString_char_facts s.id '-' hmem).2.1 rfl
  have hidx : List.findIdx?
      (fun line => line == (s.startTime ++ ' ' :: '-' :: '-' :: '>' :: ' ' :: s.endTime))
      (natToString s.id :: (s.startTime ++ ' ' :: '-' :: '-' :: '>' :: ' ' :: s.endTime) ::
        splitLines s.text) = some 1 := by
    rw [List.findIdx?_cons, if_neg (by rw [hne1]; exact Bool.false_ne_true),
      List.findIdx?_cons, if_pos (beq_self_eq_true _)]
  have hdrop : (natToString s.id ::
      (s.startTime ++ ' ' :: '-' :: '-' :: '>' :: ' ' :: s.endTime) ::
        splitLines s.text).drop (1 + 1) = splitLines s.text := rfl
  -- the timecode line splits at the arrow
  have hparts : splitOnArrow
      (s.startTime ++ ' ' :: '-' :: '-' :: '>' :: ' ' :: s.endTime) =
      [s.startTime ++ [' '], ' ' :: s.endTime] := by
    rw [tcLine_assoc, splitOnArrow_append_arrow _ ?h1, splitOnArrow_no_dash ?h2]
    case h1 =>
      intro c hc
      rcases List.mem_append.mp hc with hc | hc
      · exact (hstchars c hc).2
      · rcases List.mem_cons.mp hc with rfl | hc
        · decide
        · exact absurd hc (List.not_mem_nil c)
    case h2 =>
      intro c hc
      rcases List.mem_cons.mp hc with rfl | hc
      · decide
      · exact (hetchars c hc).2
  have hstart : jsTrim (s.startTime ++ [' ']) = s.startTime :=
    jsTrim_append_ws ' ' rfl (head?_not_ws fun c hc => (hstchars c hc).1)
      (getLast?_not_ws fun c hc => (hstchars c hc).1)
  have hend : jsTrim (' ' :: s.endTime) = s.endTime :=
    jsTrim_ws_cons ' ' rfl (head?_not_ws fun c hc => (hetchars c hc).1)
      (getLast?_not_ws fun c hc => (hetchars c hc).1)
  refine ⟨⟨s.id, s.startTime, s.endTime, s.text,
    (s.text.filter fun c => c != '\n').length,
    decide ((s.text.filter fun c => c != '\n').length > SrtCodec.MAX_TOTAL_CHARS)⟩, ?_, rfl⟩
  simp only [SrtCodec.parseBlock, isEmpty_false_of_ne_nil htrimne, Bool.false_eq_true,
    if_false, hlines, hfind1, hfind2, hidx, hdrop, hparts, hstart, hend, hidtrim,
    natOfDigits_natToString, joinSep_splitLines htcr, List.getD_cons_zero,
    List.getD_cons_succ]

theorem blockOf_head_not_ws (s : Subtitle) :
    ∀ c ∈ (SrtCodec.blockOf s).head?, wsChar c = false := by
  intro c hc
  rw [blockOf_ras, head?_append_of_ne_nil _ (natToString_ne_nil s.id)] at hc
  exact (natToString_char_facts s.id c (mem_of_head?_eq hc)).1

theorem blockOf_getLast?_eq (s : Subtitle) (htne : s.text ≠ []) :
    (SrtCodec.blockOf s).getLast? = s.text.getLast? := by
  rw [blockOf_ras]
  rw [List.getLast?_append_of_ne_nil _ (by simp),
    getLast?_cons_of_ne_nil '\n' (by simp),
    List.getLast?_append_of_ne_nil _ (by simp),
    getLast?_cons_of_ne_nil ' ' (by simp), getLast?_cons_of_ne_nil '-' (by simp),
    getLast?_cons_of_ne_nil '-' (by simp), getLast?_cons_of_ne_nil '>' (by simp),
    getLast?_cons_of_ne_nil ' ' (by simp),
    List.getLast?_append_of_ne_nil _ (by simp), getLast?_cons_of_ne_nil '\n' htne]

theorem joinSep_ne_nil {sep : List Char} (b : List Char) (rest : List (List Char))
    (hb : b ≠ []) : joinSep sep (b :: rest) ≠ [] := by
  cases rest with
  | nil => exact hb
  | cons b2 r2 =>
    rw [joinSep_cons _ b (b2 :: r2) (by simp)]
    intro h
    rw [List.append_eq_nil] at h
    exact hb (List.append_eq_nil.mp h.1).1

theorem joinSep_getLast?_ws {sep : List Char} :
    ∀ blocks : List (List Char),
      (∀ b ∈ blocks, b ≠ [] ∧ ∀ c ∈ b.getLast?, wsChar c = false) →
      ∀ c ∈ (joinSep sep blocks).getLast?, wsChar c = false := by
  intro blocks
  induction blocks with
  | nil =>
    intro _ c hc
    simp [joinSep] at hc
  | cons b rest ih =>
    intro hall c hc
    cases rest with
    | nil => exact (hall b (by simp)).2 c hc
    | cons b2 r2 =>
      rw [joinSep_cons _ b (b2 :: r2) (by simp),
        List.getLast?_append_of_ne_nil _ (joinSep_ne_nil b2 r2 (hall b2 (by simp)).1)] at hc
      exact ih (fun x hx => hall x (List.mem_cons_of_mem b hx)) c hc

theorem filterMap_parseBlock_map_blockOf :
    ∀ l : List Subtitle, (∀ s ∈ l, goodSub s) →
      ((l.map SrtCodec.blockOf).filterMap SrtCodec.parseBlock).map ctrlE = l.map ctrl := by
  intro l
  induction l with
  | nil => intro _; rfl
  | cons s rest ih =>
    intro hall
    obtain ⟨e, he, hce⟩ := parseBlock_blockOf s (hall s (by simp))
    simp only [List.map_cons, List.filterMap_cons, he]
    rw [hce, ih (fun x hx => hall x (List.mem_cons_of_mem s hx))]

/-- C8: for every canonically-shaped segment list (nonempty CR-free texts
with no blank line, not starting with a newline and not ending in
whitespace; nonempty whitespace- and dash-free timecode strings — the shape
of everything this system produces), serializing with `formatSrt` and
re-parsing with `parseSrt` yields the same number of segments in the same
order, with `id`, `startTime`, `endTime` and `text` preserved exactly. -/
theorem parseSrt_formatSrt_roundtrip (subs : List Subtitle)
    (hgood : ∀ s ∈ subs, goodSub s) :
    (SrtCodec.parseSrt (SrtCodec.formatSrt subs)).length = subs.length ∧
    (SrtCodec.parseSrt (SrtCodec.formatSrt subs)).map ctrlE = subs.map ctrl := by
  have hmap : (SrtCodec.parseSrt (SrtCodec.formatSrt subs)).map ctrlE = subs.map ctrl := by
    cases subs with
    | nil => rfl
    | cons s rest =>
      have hblocks : ∀ b ∈ (s :: rest).map SrtCodec.blockOf, b ≠ [] ∧ hasNN b = false ∧
          '\r' ∉ b ∧ b.getLast? ≠ some '\n' ∧ b.head? ≠ some '\n' ∧
          b.head? ≠ some '\r' := by
        intro b hb
        obtain ⟨s', hs', rfl⟩ := List.mem_map.mp hb
        exact blockOf_good s' (hgood s' hs')
      have hhead : ∀ c ∈ (joinSep ['\n', '\n'] ((s :: rest).map SrtCodec.blockOf)).head?,
          wsChar c = false := by
        intro c hc
        rw [List.map_cons, joinSep_head? _ _ ((blockOf_good s (hgood s (by simp))).1)] at hc
        exact blockOf_head_not_ws s c hc
      have hlast : ∀ c ∈ (joinSep ['\n', '\n'] ((s :: rest).map SrtCodec.blockOf)).getLast?,
          wsChar c = false := by
        refine joinSep_getLast?_ws _ ?_
        intro b hb
        obtain ⟨s', hs', rfl⟩ := List.mem_map.mp hb
        obtain ⟨⟨htne', _, _, _, htlast'⟩, _, _⟩ := hgood s' hs'
        refine ⟨(blockOf_good s' (hgood s' hs')).1, ?_⟩
        rw [blockOf_getLast?_eq s' htne']
        exact htlast'
      have htrim : jsTrim (SrtCodec.formatSrt (s :: rest)) =
          joinSep ['\n', '\n'] ((s :: rest).map SrtCodec.blockOf) := by
        unfold SrtCodec.formatSrt
        exact jsTrim_append_ws '\n' (by decide) hhead hlast
      show ((splitBlocks (jsTrim (SrtCodec.formatSrt (s :: rest)))).filterMap
          SrtCodec.parseBlock).map ctrlE = _
      rw [htrim, splitBlocks_joinSep _ (by simp) hblocks]
      exact filterMap_parseBlock_map_blockOf (s :: rest) hgood
  refine ⟨?_, hmap⟩
  have hlen := congrArg List.length hmap
  simpa using hlen

theorem rtDoc_good : ∀ s ∈ rtDoc, goodSub s := by
  intro s hs
  rcases List.mem_cons.mp hs with rfl | hs
  · refine ⟨⟨by decide, by decide, by decide, by decide, ?_⟩,
      ⟨by decide, by decide⟩, ⟨by decide, by decide⟩⟩
    intro c hc
    rw [show (tc "Hello world").getLast? = some 'd' from by decide] at hc
    rw [Option.mem_some_iff] at hc
    rw [← hc]
    decide
  · rcases List.mem_cons.mp hs with rfl | hs
    · refine ⟨⟨by decide, by decide, by decide, by decide, ?_⟩,
        ⟨by decide, by decide⟩, ⟨by decide, by decide⟩⟩
      intro c hc
      rw [show (tc "Hi\nthere").getLast? = some 'e' from by decide] at hc
      rw [Option.mem_some_iff] at hc
      rw [← hc]
      decide
    · exact absurd hs (List.not_mem_nil s)

/-- Witness for C8 at `rtDoc`. -/
theorem parseSrt_formatSrt_roundtrip_witness :
    (∀ s ∈ rtDoc, goodSub s) ∧
    ((SrtCodec.parseSrt (SrtCodec.formatSrt rtDoc)).length = rtDoc.length ∧
      (SrtCodec.parseSrt (SrtCodec.formatSrt rtDoc)).map ctrlE = rtDoc.map ctrl) :=
  ⟨rtDoc_good, parseSrt_formatSrt_roundtrip rtDoc rtDoc_good⟩
